import Mathlib

/-!
Verification of the PacketVision core pipeline:
flow aggregation (`parser.py`), feature building (`features.py`),
heuristic rule engine (`rules.py`) and schema alignment / scoring (`ml.py`).

Tables are embedded two ways, matching how the source touches them:
column-oriented (`FTable`, a list of named columns) for the feature /
alignment layer, and row-oriented (`DTable`, a declared column list plus
rows mapping column names to values) for the rule engine, whose detectors
explicitly test column presence before touching data.
Python floats are embedded as exact rationals.
-/

namespace PacketVision

/-! ## Column-oriented feature tables (ml.py / features.py) -/
/-- A column-oriented table: named columns in order, each a list of cell
values (rationals, standing for the Python floats/ints). -/
abbrev FTable := List (String × List ℚ)

/-- Row count of a table, as pandas sees it: the length of the (first)
column; a table with no columns has no rows. -/
def FTable.nrows : FTable → Nat
  | [] => 0
  | (_, v) :: _ => v.length

/-- The ordered list of column names of a table. -/
def FTable.colNames (t : FTable) : List String := t.map Prod.fst

/-- First column of the given name, if any (`X[c]`). -/
def FTable.findCol (t : FTable) (c : String) : Option (String × List ℚ) :=
  t.find? (fun e => e.1 == c)

/-- Embedding of `align_features_for_inference` (ml.py, lines 139–182):
1) every schema column missing from `Xnew` is appended filled with `0.0`;
2) columns not in the schema are dropped;
3) the remaining columns are reordered to the schema order (`X[feature_columns]`). -/
def align_features_for_inference (Xnew : FTable) (featureCols : List String) : FTable :=
  let n := FTable.nrows Xnew
  let X1 := featureCols.foldl
    (fun acc c =>
      if c ∈ FTable.colNames acc then acc
      else acc ++ [(c, List.replicate n (0 : ℚ))]) Xnew
  let X2 := X1.filter (fun e => e.1 ∈ featureCols)
  featureCols.map (fun c => ((FTable.findCol X2 c).map (fun e => (c, e.2))).getD (c, []))

/-- The column the alignment layer assigns to name `c`: the first column of
that name in `X` if present, otherwise an all-zero column of `n` cells. -/
def colVal (X : FTable) (n : Nat) (c : String) : List ℚ :=
  match FTable.findCol X c with
  | some e => e.2
  | none => List.replicate n 0

/-! ## Flow aggregation (parser.py) -/
/-- Transport layer of a decoded packet: TCP or UDP with ports, or anything
else (ICMP, fragments, …). -/
inductive L4Layer where
  | tcp (sport dport : Nat)
  | udp (sport dport : Nat)
  | other
deriving DecidableEq, Repr

/-- A decoded packet descriptor as the parser sees it: whether an IP layer
is present, the IP addresses, the transport layer, the serialized byte
length (`len(pkt)`) and the capture timestamp (`pkt.time`). -/
structure RawPacket where
  hasIP : Bool
  src : String
  dst : String
  l4 : L4Layer
  len : Nat
  time : ℚ
deriving DecidableEq, Repr

/-- The 5-tuple flow key `(src_ip, dst_ip, src_port, dst_port, protocol)`. -/
abbrev FlowKey := String × String × Nat × Nat × String

/-- The recognition filter of the packet loop in `parse_pcap_to_flows`: an
IP packet carrying TCP or UDP yields its flow key, byte length and
timestamp; every other packet is skipped (`continue`). -/
def recognize (p : RawPacket) : Option (FlowKey × Nat × ℚ) :=
  if ¬p.hasIP then none
  else
    match p.l4 with
    | .tcp sport dport => some ((p.src, p.dst, sport, dport, "TCP"), p.len, p.time)
    | .udp sport dport => some ((p.src, p.dst, sport, dport, "UDP"), p.len, p.time)
    | .other => none

/-- Running per-flow aggregates: the four dicts of the parser
(`packet_counts`, `total_bytes`, `first_ts`, `last_ts`) share their key set
at all times, so they are merged into one record per key. -/
structure FlowAgg where
  count : Nat
  bytes : Nat
  first : ℚ
  last : ℚ
deriving DecidableEq, Repr

/-- Lookup in the insertion-ordered aggregation state. -/
def lookupFlow (st : List (FlowKey × FlowAgg)) (k : FlowKey) : Option FlowAgg :=
  (st.find? (fun e => decide (e.1 = k))).map (fun e => e.2)

/-- One iteration of the packet loop: a recognized packet bumps its flow's
count and bytes, keeps `first_ts` (set only on first occurrence) and
overwrites `last_ts`; a fresh key is appended at the end (Python dicts keep
insertion order). -/
def stepFlow (st : List (FlowKey × FlowAgg)) (p : RawPacket) : List (FlowKey × FlowAgg) :=
  match recognize p with
  | none => st
  | some (k, sz, ts) =>
      if (lookupFlow st k).isSome then
        st.map (fun e =>
          if e.1 = k then (e.1, ⟨e.2.count + 1, e.2.bytes + sz, e.2.first, ts⟩) else e)
      else st ++ [(k, ⟨1, sz, ts, ts⟩)]

/-- One emitted flow row of `parse_pcap_to_flows`. -/
structure FlowRecord where
  src_ip : String
  dst_ip : String
  src_port : Nat
  dst_port : Nat
  protocol : String
  packet_count : Nat
  total_bytes : Nat
  start_time : ℚ
  end_time : ℚ
  duration : ℚ
  avg_packet_size : ℚ
deriving DecidableEq, Repr

/-- The key a row was aggregated under. -/
def keyOf (r : FlowRecord) : FlowKey :=
  (r.src_ip, r.dst_ip, r.src_port, r.dst_port, r.protocol)

/-- Row construction of the parser's emission loop:
`duration = max(end - start, 0.0)` and
`avg_packet_size = total_bytes / count if count > 0 else 0.0`. -/
def emitFlow (e : FlowKey × FlowAgg) : FlowRecord :=
  { src_ip := e.1.1, dst_ip := e.1.2.1, src_port := e.1.2.2.1,
    dst_port := e.1.2.2.2.1, protocol := e.1.2.2.2.2,
    packet_count := e.2.count, total_bytes := e.2.bytes,
    start_time := e.2.first, end_time := e.2.last,
    duration := max (e.2.last - e.2.first) 0,
    avg_packet_size := if 0 < e.2.count then (e.2.bytes : ℚ) / (e.2.count : ℚ) else 0 }

/-- Embedding of `parse_pcap_to_flows` (parser.py): fold the packet loop
over the packet sequence, then emit one row per aggregated flow. -/
def parse_pcap_to_flows (ps : List RawPacket) : List FlowRecord :=
  (ps.foldl stepFlow []).map emitFlow

/-- The recognized packets of a sequence, with their keys, sizes and
timestamps. -/
def recognized (ps : List RawPacket) : List (FlowKey × Nat × ℚ) :=
  ps.filterMap recognize

/-- Number of recognized packets with the given flow key. -/
def keyCount (ps : List RawPacket) (k : FlowKey) : Nat :=
  (recognized ps).countP (fun r => decide (r.1 = k))

/-- Summed byte length of the recognized packets with the given flow key. -/
def keyBytes (ps : List RawPacket) (k : FlowKey) : Nat :=
  (((recognized ps).filter (fun r => decide (r.1 = k))).map (fun r => r.2.1)).sum

/-- Timestamp of the first recognized packet with the given key, if any. -/
def keyFirstTs (ps : List RawPacket) (k : FlowKey) : Option ℚ :=
  ((recognized ps).find? (fun r => decide (r.1 = k))).map (fun r => r.2.2)

/-- Timestamp of the last recognized packet (in arrival order) with the
given key, if any. -/
def keyLastTs (ps : List RawPacket) (k : FlowKey) : Option ℚ :=
  ((recognized ps).reverse.find? (fun r => decide (r.1 = k))).map (fun r => r.2.2)

/-- The aggregation state after the packet loop has consumed `ps`. -/
def aggState (ps : List RawPacket) : List (FlowKey × FlowAgg) :=
  ps.foldl stepFlow []

/-- The key list of an aggregation state, in insertion order. -/
def flowKeys (st : List (FlowKey × FlowAgg)) : List FlowKey := st.map Prod.fst

/-- A three-packet capture: two TCP packets of one conversation with an
unrecognized (non-IP) packet between them. -/
def psW : List RawPacket :=
  [⟨true, "a", "b", .tcp 1 2, 100, 10⟩,
   ⟨false, "c", "d", .other, 7, 11⟩,
   ⟨true, "a", "b", .tcp 1 2, 50, 12⟩]

/-- The single flow row the parser emits for `psW`. -/
def rW : FlowRecord :=
  ⟨"a", "b", 1, 2, "TCP", 2, 150, 10, 12, 2, 75⟩

/-! ## Row-oriented tables and the rule engine (rules.py) -/
/-- A cell value: a string (addresses, protocol tags) or a number. -/
inductive Val where
  | str : String → Val
  | num : ℚ → Val
deriving DecidableEq, Repr

/-- Numeric reading of a cell, for columns the rules sum or compare. -/
def Val.toQ : Val → ℚ
  | .str _ => 0
  | .num q => q

/-- A table row, as a total assignment of values to column names; only the
names listed in the owning table's `cols` are meaningful. -/
abbrev Row := String → Val

/-- A row-oriented table: the declared column list (the detectors test
membership in it before touching any data) and the rows. -/
structure DTable where
  cols : List String
  rows : List Row

/-- pandas `DataFrame.empty`: true iff the table has no rows or no
columns. -/
def DTable.isEmpty (t : DTable) : Bool := t.rows.isEmpty || t.cols.isEmpty

/-- The check `required_cols.issubset(flows.columns)`. -/
def requiredSubset (req : List String) (cols : List String) : Bool :=
  req.all (fun c => cols.contains c)

/-- A rule finding (`RuleFinding` dataclass); the free-text `message` field
carries no semantics and is not modelled. -/
structure RuleFinding where
  rule_id : String
  severity : String
  flows_affected : Nat
deriving DecidableEq, Repr

/-- The severity weight table `SEVERITY_WEIGHTS`. -/
def SEVERITY_WEIGHTS : List (String × Int) :=
  [("low", 1), ("medium", 2), ("high", 3), ("critical", 4)]

/-- The lookup `SEVERITY_WEIGHTS.get(severity, 1)`. -/
def severityWeightGet (s : String) : Int :=
  ((SEVERITY_WEIGHTS.find? (fun e => e.1 == s)).map (fun e => e.2)).getD 1

/-- Embedding of `_score_to_level`: bucket a numeric risk score into a label. -/
def score_to_level (score : Int) : String :=
  if score ≤ 0 then "none"
  else if score ≤ 3 then "low"
  else if score ≤ 7 then "medium"
  else "high"

def SCAN_PORT_THRESHOLD : Nat := 50

/-- The distinct source addresses of the rows (`groupby("src_ip")` keys). -/
def srcIpVals (rows : List Row) : List Val :=
  (rows.map (fun r => r "src_ip")).dedup

/-- Distinct destination ports of the rows with the given source
(`groupby("src_ip")["dst_port"].nunique()`). -/
def nuniqueDstPorts (rows : List Row) (s : Val) : Nat :=
  (((rows.filter (fun r => decide (r "src_ip" = s))).map (fun r => r "dst_port")).dedup).length

/-- Embedding of `_rule_port_scan`: any source hitting at least
`SCAN_PORT_THRESHOLD` distinct destination ports yields one severity-high
finding whose `flows_affected` counts the rows of all offending sources. -/
def rule_port_scan (flows : DTable) : Option RuleFinding :=
  if flows.isEmpty then none
  else if ¬ requiredSubset ["src_ip", "dst_port", "packet_count", "duration"] flows.cols then
    none
  else
    let suspicious := (srcIpVals flows.rows).filter
      (fun s => decide (SCAN_PORT_THRESHOLD ≤ nuniqueDstPorts flows.rows s))
    if suspicious.isEmpty then none
    else some
      { rule_id := "PV01_PORT_SCAN", severity := "high",
        flows_affected :=
          (flows.rows.filter (fun r => decide (r "src_ip" ∈ suspicious))).length }

/-- The list `SENSITIVE_PORTS = [22, 3389, 445, 139]` as cell values. -/
def SENSITIVE_PORTS : List Val := [.num 22, .num 3389, .num 445, .num 139]

def BRUTE_FLOW_COUNT_THRESHOLD : Nat := 30

def BRUTE_PACKET_THRESHOLD : ℚ := 1000

/-- Embedding of `_rule_bruteforce_like`: the rows aimed at a sensitive
port, gated by flow count OR packet sum, with the escalation decision using
the same thresholds as the gate. -/
def rule_bruteforce_like (flows : DTable) : Option RuleFinding :=
  if flows.isEmpty then none
  else if ¬ requiredSubset ["dst_port", "packet_count"] flows.cols then none
  else
    let sensitive := flows.rows.filter (fun r => decide (r "dst_port" ∈ SENSITIVE_PORTS))
    if sensitive.isEmpty then none
    else
      let total_flows := sensitive.length
      let total_packets := (sensitive.map (fun r => (r "packet_count").toQ)).sum
      if total_flows < BRUTE_FLOW_COUNT_THRESHOLD ∧ total_packets < BRUTE_PACKET_THRESHOLD then
        none
      else
        some
          { rule_id := "PV02_BRUTEFORCE_LIKE",
            severity :=
              if BRUTE_FLOW_COUNT_THRESHOLD ≤ total_flows
                  ∨ BRUTE_PACKET_THRESHOLD ≤ total_packets then "high"
              else "medium",
            flows_affected := total_flows }

/-- Python `int(...)` on a float/rational: truncation toward zero. -/
def pyInt (q : ℚ) : Int := if 0 ≤ q then ⌊q⌋ else ⌈q⌉

def DNS_PKT_THRESHOLD : Int := 500

def DNS_BYTES_THRESHOLD : Int := 500000

/-- Embedding of `_rule_dns_tunnel_like`: sums of packets and bytes over
the port-53 rows, gated by either threshold, severity escalating to high at
double either threshold. -/
def rule_dns_tunnel_like (flows : DTable) : Option RuleFinding :=
  if flows.isEmpty then none
  else if ¬ requiredSubset ["dst_port", "packet_count", "total_bytes"] flows.cols then none
  else
    let dns_flows := flows.rows.filter (fun r => decide (r "dst_port" = Val.num 53))
    if dns_flows.isEmpty then none
    else
      let total_dns_pkts := pyInt ((dns_flows.map (fun r => (r "packet_count").toQ)).sum)
      let total_dns_bytes := pyInt ((dns_flows.map (fun r => (r "total_bytes").toQ)).sum)
      if total_dns_pkts < DNS_PKT_THRESHOLD ∧ total_dns_bytes < DNS_BYTES_THRESHOLD then none
      else
        some
          { rule_id := "PV03_DNS_TUNNEL_LIKE",
            severity :=
              if DNS_PKT_THRESHOLD * 2 ≤ total_dns_pkts
                  ∨ DNS_BYTES_THRESHOLD * 2 ≤ total_dns_bytes then "high"
              else "medium",
            flows_affected := dns_flows.length }

/-- The rule engine's result dictionary. -/
structure RiskAssessment where
  risk_level : String
  risk_score : Int
  num_findings : Nat
  findings : List RuleFinding
deriving DecidableEq, Repr

/-- Embedding of `analyze_flows_with_rules`: run the three detectors in
order, keep the findings, sum `SEVERITY_WEIGHTS.get(sev, 1)` and bucket. -/
def analyze_flows_with_rules (flows : DTable) : RiskAssessment :=
  let findings :=
    [rule_port_scan flows, rule_bruteforce_like flows, rule_dns_tunnel_like flows].filterMap id
  let score := findings.foldl (fun acc f => acc + severityWeightGet f.severity) 0
  { risk_level := score_to_level score, risk_score := score,
    num_findings := findings.length, findings := findings }

/-- Rank of a risk level in the order none < low < medium < high. -/
def levelRank (s : String) : Nat :=
  if s = "none" then 0
  else if s = "low" then 1
  else if s = "medium" then 2
  else if s = "high" then 3
  else 4

/-- Rank of a severity in the order low < medium < high < critical. -/
def severityRank (s : String) : Nat :=
  if s = "low" then 1
  else if s = "medium" then 2
  else if s = "high" then 3
  else if s = "critical" then 4
  else 0

/-- The three detectors, for statements quantifying over them. -/
inductive Detector where
  | portScan
  | bruteforce
  | dnsTunnel
deriving DecidableEq, Repr

def runDetector : Detector → DTable → Option RuleFinding
  | .portScan => rule_port_scan
  | .bruteforce => rule_bruteforce_like
  | .dnsTunnel => rule_dns_tunnel_like

/-- A row "matches the detector's filter" relative to table `t`: same
source as an existing row for the port scan, sensitive destination port for
bruteforce, destination port 53 for DNS. -/
def matchesFilter (d : Detector) (t : DTable) (r : Row) : Prop :=
  match d with
  | .portScan => r "src_ip" ∈ t.rows.map (fun rr => rr "src_ip")
  | .bruteforce => r "dst_port" ∈ SENSITIVE_PORTS
  | .dnsTunnel => r "dst_port" = Val.num 53

instance (d : Detector) (t : DTable) (r : Row) : Decidable (matchesFilter d t r) := by
  cases d <;> (unfold matchesFilter; infer_instance)

/-- The table `t` with extra rows appended (same columns). -/
def DTable.appendRows (t : DTable) (extra : List Row) : DTable :=
  ⟨t.cols, t.rows ++ extra⟩

/-- The rows of a table selected by the bruteforce rule's port filter. -/
def sensitiveRows (rows : List Row) : List Row :=
  rows.filter (fun r => decide (r "dst_port" ∈ SENSITIVE_PORTS))

/-- Packet sum of a row selection. -/
def packetSum (rows : List Row) : ℚ :=
  (rows.map (fun r => (r "packet_count").toQ)).sum

/-- The offending sources of the port-scan rule. -/
def suspiciousSources (rows : List Row) : List Val :=
  (srcIpVals rows).filter (fun s => decide (SCAN_PORT_THRESHOLD ≤ nuniqueDstPorts rows s))

/-- The port-53 rows of the DNS rule. -/
def dnsRows (rows : List Row) : List Row :=
  rows.filter (fun r => decide (r "dst_port" = Val.num 53))

/-- Byte sum of a row selection. -/
def byteSum (rows : List Row) : ℚ :=
  (rows.map (fun r => (r "total_bytes").toQ)).sum

/-! ### Concrete tables for witnesses -/
/-- A row aimed at SSH (port 22) carrying 1000 packets. -/
def rowB : Row := fun c => if c = "dst_port" then Val.num 22 else Val.num 1000

/-- A one-row flow table that trips the bruteforce rule by packet volume. -/
def tableB : DTable := ⟨["dst_port", "packet_count"], [rowB]⟩

/-- A table whose column list lacks every detector's required columns. -/
def tableM : DTable := ⟨["total_bytes"], [rowB]⟩

/-! ## Feature engineering (features.py) -/
/-- The epsilon of `_safe_divide` (`eps: float = 1e-6`). -/
def epsSafe : ℚ := 1 / 1000000

/-- Embedding of `_safe_divide`: divide after replacing zero denominators —
and only zero denominators — by `eps` (`denominator.replace(0, eps)`). -/
def safe_divide (numerator denominator : ℚ) : ℚ :=
  numerator / (if denominator = 0 then epsSafe else denominator)

/-- A 0/1 flag column value (`.astype(int)` of a boolean condition). -/
def flagQ (p : Prop) [Decidable p] : ℚ := if p then 1 else 0

/-- Embedding of `build_features`: empty input gives the empty frame;
otherwise the derived columns, written here in their final sorted order
(`df.reindex(sorted(df.columns), axis=1)`), with the identifier columns
(src_ip, dst_ip, protocol, start_time, end_time) already dropped. -/
def build_features (flows : List FlowRecord) : FTable :=
  if flows.isEmpty then []
  else
    [ ("avg_packet_size", flows.map (fun f => f.avg_packet_size)),
      ("bytes_per_sec", flows.map (fun f => safe_divide (f.total_bytes : ℚ) f.duration)),
      ("dst_high_port", flows.map (fun f => flagQ (1024 ≤ f.dst_port))),
      ("dst_is_dns", flows.map (fun f => flagQ (f.dst_port = 53))),
      ("dst_is_rdp", flows.map (fun f => flagQ (f.dst_port = 3389))),
      ("dst_is_smb", flows.map (fun f => flagQ (f.dst_port = 139 ∨ f.dst_port = 445))),
      ("dst_is_ssh", flows.map (fun f => flagQ (f.dst_port = 22))),
      ("dst_is_web", flows.map (fun f =>
        flagQ (f.dst_port = 80 ∨ f.dst_port = 443 ∨ f.dst_port = 8080))),
      ("dst_port", flows.map (fun f => (f.dst_port : ℚ))),
      ("duration", flows.map (fun f => f.duration)),
      ("is_long_flow", flows.map (fun f => flagQ (60 < f.duration))),
      ("is_short_flow", flows.map (fun f => flagQ (f.duration < 1))),
      ("is_tcp", flows.map (fun f => flagQ (f.protocol = "TCP"))),
      ("is_udp", flows.map (fun f => flagQ (f.protocol = "UDP"))),
      ("packet_count", flows.map (fun f => (f.packet_count : ℚ))),
      ("pkts_per_sec", flows.map (fun f => safe_divide (f.packet_count : ℚ) f.duration)),
      ("src_high_port", flows.map (fun f => flagQ (1024 ≤ f.src_port))),
      ("src_port", flows.map (fun f => (f.src_port : ℚ))),
      ("total_bytes", flows.map (fun f => (f.total_bytes : ℚ))) ]

/-- The per-row rate formula as the spec words it: numerator divided by
`max(duration, ε)`. Written from the spec, for comparison with the code's
`safe_divide`. -/
def spec_rate (numerator duration : ℚ) : ℚ := numerator / max duration epsSafe

/-- A flow whose duration lies strictly between 0 and ε = 1e-6. -/
def rEps : FlowRecord :=
  ⟨"a", "b", 1, 2, "TCP", 1, 1, 0, 1 / 2000000, 1 / 2000000, 1⟩

/-! ## Flow-table schema and the scoring façade (ml.py) -/
/-- The 11 flow columns the parser always returns, in their construction
order (both in the row dicts and in the explicit empty-frame fallback). -/
def flowColumns : List String :=
  ["src_ip", "dst_ip", "src_port", "dst_port", "protocol", "packet_count",
   "total_bytes", "start_time", "end_time", "duration", "avg_packet_size"]

/-- One parser row as a row-oriented table row. -/
def flowRecToRow (f : FlowRecord) : Row := fun c =>
  if c = "src_ip" then .str f.src_ip
  else if c = "dst_ip" then .str f.dst_ip
  else if c = "src_port" then .num f.src_port
  else if c = "dst_port" then .num f.dst_port
  else if c = "protocol" then .str f.protocol
  else if c = "packet_count" then .num f.packet_count
  else if c = "total_bytes" then .num f.total_bytes
  else if c = "start_time" then .num f.start_time
  else if c = "end_time" then .num f.end_time
  else if c = "duration" then .num f.duration
  else if c = "avg_packet_size" then .num f.avg_packet_size
  else .num 0

/-- The parser's output as a DataFrame: the 11 columns in both the
populated and the explicitly-constructed empty case. -/
def parseFlowsTable (ps : List RawPacket) : DTable :=
  ⟨flowColumns, (parse_pcap_to_flows ps).map flowRecToRow⟩

/-- The trained classifier as the façade sees it: a class list plus
per-row prediction and probability functions (opaque capability). -/
structure Classifier where
  classes : List String
  predictRow : List ℚ → String
  probaRow : List ℚ → List ℚ

/-- One scored flow of `predict_flows`. -/
structure Verdict where
  predicted_label : String
  probabilities : List (String × ℚ)
deriving DecidableEq, Repr

/-- Row `i` of a column-oriented frame. -/
def FTable.row (t : FTable) (i : Nat) : List ℚ :=
  t.map (fun col => col.2.getD i 0)

/-- Embedding of `predict_flows` (ml.py): an empty aligned frame yields no
verdicts — the model functions are not consulted; otherwise one verdict per
row pairing the predicted label with per-class probabilities. -/
def predict_flows_fn (model : Classifier) (Xaligned : FTable) : List Verdict :=
  if Xaligned.isEmpty ∨ FTable.nrows Xaligned = 0 then []
  else
    (List.range (FTable.nrows Xaligned)).map (fun i =>
      { predicted_label := model.predictRow (FTable.row Xaligned i),
        probabilities := model.classes.zip (model.probaRow (FTable.row Xaligned i)) })

/-! ## Theorems -/

/-! ### Helper lemmas about `find?` on association lists -/
theorem findCol_append_left (t₁ t₂ : FTable) (c : String) (e : String × List ℚ)
    (h : FTable.findCol t₁ c = some e) :
    FTable.findCol (t₁ ++ t₂) c = some e := by
  unfold FTable.findCol at *
  induction t₁ with
  | nil => simp [List.find?] at h
  | cons x t ih =>
      by_cases hx : x.1 == c
      · simp only [List.find?, hx] at h
        simp [List.find?, hx, h]
      · simp only [List.find?, hx] at h
        simp only [List.cons_append, List.find?, hx]
        exact ih h

theorem findCol_append_right (t₁ t₂ : FTable) (c : String)
    (h : FTable.findCol t₁ c = none) :
    FTable.findCol (t₁ ++ t₂) c = FTable.findCol t₂ c := by
  unfold FTable.findCol at *
  induction t₁ with
  | nil => simp
  | cons x t ih =>
      by_cases hx : x.1 == c
      · simp [List.find?, hx] at h
      · simp only [List.find?, hx] at h
        simp only [List.cons_append, List.find?, hx]
        exact ih h

theorem findCol_mem_names (t : FTable) (c : String) :
    c ∈ FTable.colNames t ↔ (FTable.findCol t c).isSome := by
  unfold FTable.colNames FTable.findCol
  rw [List.find?_isSome]
  constructor
  · intro h
    rcases List.mem_map.mp h with ⟨e, he, hc⟩
    exact ⟨e, he, by simp [hc]⟩
  · rintro ⟨e, he, hc⟩
    exact List.mem_map.mpr ⟨e, he, by simpa using hc⟩

/-- Phase 1 of alignment, present case: a column already in the table is
untouched by the missing-column fill loop. -/
theorem findCol_addMissing_some (cols : List String) (acc : FTable) (n : Nat)
    (c : String) (e : String × List ℚ) (he : FTable.findCol acc c = some e) :
    FTable.findCol
      (cols.foldl (fun acc c =>
        if c ∈ FTable.colNames acc then acc
        else acc ++ [(c, List.replicate n (0 : ℚ))]) acc) c = some e := by
  induction cols generalizing acc with
  | nil => simpa using he
  | cons c' cols ih =>
      simp only [List.foldl_cons]
      by_cases hmem : c' ∈ FTable.colNames acc
      · rw [if_pos hmem]; exact ih acc he
      · rw [if_neg hmem]
        exact ih _ (findCol_append_left acc _ c e he)

/-- Phase 1 of alignment, absent case: a column not in the table ends up as
the all-zero column exactly when its name occurs in the schema. -/
theorem findCol_addMissing_none (cols : List String) (acc : FTable) (n : Nat)
    (c : String) (he : FTable.findCol acc c = none) :
    FTable.findCol
      (cols.foldl (fun acc c =>
        if c ∈ FTable.colNames acc then acc
        else acc ++ [(c, List.replicate n (0 : ℚ))]) acc) c =
      (if c ∈ cols then some (c, List.replicate n (0 : ℚ)) else none) := by
  induction cols generalizing acc with
  | nil => simpa using he
  | cons c' cols ih =>
      simp only [List.foldl_cons]
      by_cases hmem : c' ∈ FTable.colNames acc
      · rw [if_pos hmem]
        have hcc : c' ≠ c := by
          intro h
          have hs := (findCol_mem_names acc c').mp hmem
          rw [h, he] at hs
          simp at hs
        rw [ih acc he]
        simp [List.mem_cons, Ne.symm hcc]
      · rw [if_neg hmem]
        by_cases hcc : c' = c
        · subst hcc
          have hone : FTable.findCol (acc ++ [(c', List.replicate n (0 : ℚ))]) c' =
              some (c', List.replicate n (0 : ℚ)) := by
            rw [findCol_append_right acc _ c' he]
            simp [FTable.findCol, List.find?]
          rw [findCol_addMissing_some cols _ n c' _ hone]
          simp
        · have hb : ((c', List.replicate n (0 : ℚ)).1 == c) = false := by
            simp [hcc]
          have hone : FTable.findCol (acc ++ [(c', List.replicate n (0 : ℚ))]) c = none := by
            rw [findCol_append_right acc _ c he]
            simp [FTable.findCol, List.find?, hb]
          rw [ih _ hone]
          simp [List.mem_cons, Ne.symm hcc]

/-- Lookup of a name commutes with a filter that keeps every column of that
name. -/
theorem findCol_filter (t : FTable) (q : String × List ℚ → Bool) (c : String)
    (hq : ∀ e : String × List ℚ, e.1 = c → q e = true) :
    FTable.findCol (t.filter q) c = FTable.findCol t c := by
  unfold FTable.findCol
  induction t with
  | nil => simp
  | cons e t ih =>
      by_cases hp : e.1 == c
      · have : q e = true := hq e (by simpa using hp)
        simp [List.filter, this, List.find?, hp]
      · by_cases hqe : q e = true
        · simp only [List.filter_cons, hqe, if_pos, List.find?, hp]
          simpa using ih
        · simp only [List.filter_cons, hqe, Bool.false_eq_true, if_neg, not_false_iff,
            List.find?, hp]
          simpa [List.find?, hp] using ih

theorem find?_map_self {β : Type} (s : List String) (g : String → β) (c : String)
    (hc : c ∈ s) :
    (s.map (fun c' => (c', g c'))).find? (fun e => e.1 == c) = some (c, g c) := by
  induction s with
  | nil => cases hc
  | cons a s ih =>
      by_cases ha : a = c
      · subst ha
        simp [List.find?]
      · rcases List.mem_cons.mp hc with h | h
        · exact absurd h.symm ha
        · simp only [List.map_cons, List.find?]
          have : ((a, g a).1 == c) = false := by simpa using ha
          rw [this]
          exact ih h

/-- Functional characterization of the alignment layer: the result is exactly
the schema, each name bound to its original column when `Xnew` has one and to
an all-zero column of `Xnew`'s row count otherwise. -/
theorem align_eq_map (Xnew : FTable) (featureCols : List String) :
    align_features_for_inference Xnew featureCols =
      featureCols.map (fun c => (c, colVal Xnew (FTable.nrows Xnew) c)) := by
  unfold align_features_for_inference
  apply List.map_congr_left
  intro c hc
  have hfilter :
      FTable.findCol
        ((featureCols.foldl (fun acc c =>
          if c ∈ FTable.colNames acc then acc
          else acc ++ [(c, List.replicate (FTable.nrows Xnew) (0 : ℚ))]) Xnew).filter
            (fun e => e.1 ∈ featureCols)) c =
      FTable.findCol
        (featureCols.foldl (fun acc c =>
          if c ∈ FTable.colNames acc then acc
          else acc ++ [(c, List.replicate (FTable.nrows Xnew) (0 : ℚ))]) Xnew) c := by
    apply findCol_filter
    intro e he
    subst he
    exact decide_eq_true hc
  rw [hfilter]
  unfold colVal
  by_cases hx : (FTable.findCol Xnew c).isSome
  · rcases Option.isSome_iff_exists.mp hx with ⟨e, he⟩
    have hec : e.1 = c := by
      have := List.find?_some he
      simpa using this
    rw [findCol_addMissing_some featureCols Xnew (FTable.nrows Xnew) c e he, he]
    simp [← hec]
  · have hnone : FTable.findCol Xnew c = none := Option.not_isSome_iff_eq_none.mp hx
    rw [findCol_addMissing_none featureCols Xnew (FTable.nrows Xnew) c hnone, hnone]
    simp [hc]

theorem findCol_align (Xnew : FTable) (s : List String) (c : String) (hc : c ∈ s) :
    FTable.findCol (align_features_for_inference Xnew s) c =
      some (c, colVal Xnew (FTable.nrows Xnew) c) := by
  rw [align_eq_map]
  exact find?_map_self s _ c hc

theorem colNames_cons (e : String × List ℚ) (t : FTable) :
    FTable.colNames (e :: t) = e.1 :: FTable.colNames t := rfl

/-- In a table with distinct column names, a member column is what lookup by
its name returns. -/
theorem findCol_of_mem_nodup (t : FTable) (c : String) (v : List ℚ)
    (hnd : (FTable.colNames t).Nodup) (hm : (c, v) ∈ t) :
    FTable.findCol t c = some (c, v) := by
  induction t with
  | nil => cases hm
  | cons e t ih =>
      rw [colNames_cons] at hnd
      rcases List.nodup_cons.mp hnd with ⟨hni, hnd'⟩
      rcases List.mem_cons.mp hm with h | h
      · rw [← h]
        simp [FTable.findCol, List.find?]
      · have hct : c ∈ FTable.colNames t := List.mem_map.mpr ⟨(c, v), h, rfl⟩
        have hne : (e.1 == c) = false := by
          simp only [beq_eq_false_iff_ne, ne_eq]
          intro hh
          exact hni (hh ▸ hct)
        simp only [FTable.findCol, List.find?, hne]
        exact ih hnd' h

/-- C1: `align(X, schema)` has exactly the schema's columns in the schema's
order; schema columns absent from `X` come back as all-zero columns over
`X`'s rows; columns of `X` outside the schema are gone; columns present in
both keep their original values. The statement is unconditional in `X` (in
particular it covers the empty table); the preserved-values part assumes
`X`'s column names are distinct, as they are for any pandas frame. -/
theorem align_schema_correct (Xnew : FTable) (s : List String) :
    FTable.colNames (align_features_for_inference Xnew s) = s
    ∧ (∀ c ∈ s, c ∉ FTable.colNames Xnew →
        FTable.findCol (align_features_for_inference Xnew s) c =
          some (c, List.replicate (FTable.nrows Xnew) (0 : ℚ)))
    ∧ (∀ c, c ∉ s → c ∉ FTable.colNames (align_features_for_inference Xnew s))
    ∧ (∀ c v, (FTable.colNames Xnew).Nodup → (c, v) ∈ Xnew → c ∈ s →
        FTable.findCol (align_features_for_inference Xnew s) c = some (c, v)) := by
  have h1 : FTable.colNames (align_features_for_inference Xnew s) = s := by
    rw [align_eq_map]
    unfold FTable.colNames
    rw [List.map_map]
    exact List.map_id s
  refine ⟨h1, ?_, ?_, ?_⟩
  · intro c hc habs
    rw [findCol_align Xnew s c hc]
    have hnone : FTable.findCol Xnew c = none := by
      rcases h : FTable.findCol Xnew c with _ | e
      · rfl
      · exact absurd ((findCol_mem_names Xnew c).mpr (by simp [h])) habs
    unfold colVal
    rw [hnone]
  · intro c hcs
    rw [h1]
    exact hcs
  · intro c v hnd hm hcs
    rw [findCol_align Xnew s c hcs]
    unfold colVal
    rw [findCol_of_mem_nodup Xnew c v hnd hm]

/-- Witness for C1 at the spec's shape: a table with one schema column and
one extra column, aligned against a four-column schema. -/
theorem align_schema_correct_witness :
    FTable.colNames
        (align_features_for_inference [("b", [5, 6]), ("x", [7, 8])] ["a", "b", "c", "d"]) =
      ["a", "b", "c", "d"]
    ∧ FTable.findCol
        (align_features_for_inference [("b", [5, 6]), ("x", [7, 8])] ["a", "b", "c", "d"]) "a" =
      some ("a", [0, 0])
    ∧ "x" ∉ FTable.colNames
        (align_features_for_inference [("b", [5, 6]), ("x", [7, 8])] ["a", "b", "c", "d"])
    ∧ FTable.findCol
        (align_features_for_inference [("b", [5, 6]), ("x", [7, 8])] ["a", "b", "c", "d"]) "b" =
      some ("b", [5, 6]) := by
  obtain ⟨h1, h2, h3, h4⟩ :=
    align_schema_correct [("b", [5, 6]), ("x", [7, 8])] ["a", "b", "c", "d"]
  refine ⟨h1, ?_, h3 "x" (by decide), h4 "b" [5, 6] (by decide) (by decide) (by decide)⟩
  have := h2 "a" (by decide) (by decide)
  simpa using this

/-! ### Lookup lemmas for the aggregation state -/
theorem lookupFlow_cons (e : FlowKey × FlowAgg) (st : List (FlowKey × FlowAgg))
    (k : FlowKey) :
    lookupFlow (e :: st) k = if e.1 = k then some e.2 else lookupFlow st k := by
  unfold lookupFlow
  by_cases h : e.1 = k
  · simp [List.find?, h]
  · simp [List.find?, h]

theorem lookupFlow_append_left (st₁ st₂ : List (FlowKey × FlowAgg)) (k : FlowKey)
    (a : FlowAgg) (h : lookupFlow st₁ k = some a) :
    lookupFlow (st₁ ++ st₂) k = some a := by
  induction st₁ with
  | nil => simp [lookupFlow] at h
  | cons e st ih =>
      rw [lookupFlow_cons] at h
      rw [List.cons_append, lookupFlow_cons]
      by_cases he : e.1 = k
      · rwa [if_pos he] at h ⊢
      · rw [if_neg he] at h ⊢
        exact ih h

theorem lookupFlow_append_right (st₁ st₂ : List (FlowKey × FlowAgg)) (k : FlowKey)
    (h : lookupFlow st₁ k = none) :
    lookupFlow (st₁ ++ st₂) k = lookupFlow st₂ k := by
  induction st₁ with
  | nil => simp
  | cons e st ih =>
      rw [lookupFlow_cons] at h
      rw [List.cons_append, lookupFlow_cons]
      by_cases he : e.1 = k
      · rw [if_pos he] at h; cases h
      · rw [if_neg he] at h ⊢
        exact ih h

theorem lookupFlow_map_update_eq (st : List (FlowKey × FlowAgg)) (k : FlowKey)
    (f : FlowAgg → FlowAgg) (a : FlowAgg) (h : lookupFlow st k = some a) :
    lookupFlow (st.map (fun e => if e.1 = k then (e.1, f e.2) else e)) k = some (f a) := by
  induction st with
  | nil => simp [lookupFlow] at h
  | cons e st ih =>
      rw [lookupFlow_cons] at h
      by_cases he : e.1 = k
      · rw [if_pos he] at h
        cases h
        simp only [List.map_cons, if_pos he]
        rw [lookupFlow_cons, if_pos he]
      · rw [if_neg he] at h
        simp only [List.map_cons, if_neg he]
        rw [lookupFlow_cons, if_neg he]
        exact ih h

theorem lookupFlow_map_update_ne (st : List (FlowKey × FlowAgg)) (k k' : FlowKey)
    (f : FlowAgg → FlowAgg) (h : k' ≠ k) :
    lookupFlow (st.map (fun e => if e.1 = k then (e.1, f e.2) else e)) k' =
      lookupFlow st k' := by
  induction st with
  | nil => simp
  | cons e st ih =>
      by_cases he : e.1 = k
      · simp only [List.map_cons, if_pos he]
        rw [lookupFlow_cons, lookupFlow_cons]
        have : e.1 ≠ k' := fun hh => h (hh ▸ he ▸ rfl)
        rw [if_neg (by simpa using fun hh => this hh), if_neg this]
        exact ih
      · simp only [List.map_cons, if_neg he]
        rw [lookupFlow_cons, lookupFlow_cons]
        by_cases he' : e.1 = k'
        · rw [if_pos he', if_pos he']
        · rw [if_neg he', if_neg he']
          exact ih

theorem lookupFlow_isSome_iff_mem (st : List (FlowKey × FlowAgg)) (k : FlowKey) :
    (lookupFlow st k).isSome ↔ k ∈ flowKeys st := by
  unfold lookupFlow flowKeys
  rw [Option.isSome_map', List.find?_isSome]
  constructor
  · rintro ⟨e, he, hk⟩
    exact List.mem_map.mpr ⟨e, he, by simpa using hk⟩
  · intro h
    rcases List.mem_map.mp h with ⟨e, he, hk⟩
    exact ⟨e, he, by simp [hk]⟩

/-- A packet the parser does not recognize leaves the state untouched. -/
theorem stepFlow_none (st : List (FlowKey × FlowAgg)) (p : RawPacket)
    (h : recognize p = none) : stepFlow st p = st := by
  simp [stepFlow, h]

theorem lookupFlow_stepFlow_hit_some (st : List (FlowKey × FlowAgg)) (p : RawPacket)
    (k : FlowKey) (sz : Nat) (ts : ℚ) (a : FlowAgg)
    (hp : recognize p = some (k, sz, ts)) (ha : lookupFlow st k = some a) :
    lookupFlow (stepFlow st p) k = some ⟨a.count + 1, a.bytes + sz, a.first, ts⟩ := by
  unfold stepFlow
  rw [hp]
  simp only [ha, Option.isSome_some, if_true]
  exact lookupFlow_map_update_eq st k
    (fun b => ⟨b.count + 1, b.bytes + sz, b.first, ts⟩) a ha

theorem lookupFlow_stepFlow_hit_none (st : List (FlowKey × FlowAgg)) (p : RawPacket)
    (k : FlowKey) (sz : Nat) (ts : ℚ)
    (hp : recognize p = some (k, sz, ts)) (ha : lookupFlow st k = none) :
    lookupFlow (stepFlow st p) k = some ⟨1, sz, ts, ts⟩ := by
  unfold stepFlow
  rw [hp]
  simp only [ha, Option.isSome_none, Bool.false_eq_true, if_false]
  rw [lookupFlow_append_right st _ k ha, lookupFlow_cons]
  simp

theorem lookupFlow_stepFlow_ne (st : List (FlowKey × FlowAgg)) (p : RawPacket)
    (k : FlowKey)
    (h : ∀ k0 sz ts, recognize p = some (k0, sz, ts) → k ≠ k0) :
    lookupFlow (stepFlow st p) k = lookupFlow st k := by
  unfold stepFlow
  rcases hp : recognize p with _ | ⟨k0, sz, ts⟩
  · rfl
  · dsimp only
    have hk : k ≠ k0 := h k0 sz ts hp
    by_cases hh : (lookupFlow st k0).isSome
    · rw [if_pos hh]
      exact lookupFlow_map_update_ne st k0 k
        (fun b => ⟨b.count + 1, b.bytes + sz, b.first, ts⟩) hk
    · rw [if_neg hh]
      rcases hl : lookupFlow st k with _ | a
      · rw [lookupFlow_append_right st _ k hl, lookupFlow_cons]
        rw [if_neg (fun hh' : k0 = k => hk hh'.symm)]
        rfl
      · exact lookupFlow_append_left st _ k a hl

/-! ### Characterization of the aggregation fold -/
theorem aggState_append_one (ps : List RawPacket) (p : RawPacket) :
    aggState (ps ++ [p]) = stepFlow (aggState ps) p := by
  simp [aggState, List.foldl_append]

theorem recognized_snoc_some (ps : List RawPacket) (p : RawPacket)
    (r : FlowKey × Nat × ℚ) (hp : recognize p = some r) :
    recognized (ps ++ [p]) = recognized ps ++ [r] := by
  simp [recognized, List.filterMap_append, hp]

theorem recognized_snoc_none (ps : List RawPacket) (p : RawPacket)
    (hp : recognize p = none) :
    recognized (ps ++ [p]) = recognized ps := by
  simp [recognized, List.filterMap_append, hp]

theorem keyFirstTs_eq_none (ps : List RawPacket) (k : FlowKey)
    (h : keyCount ps k = 0) : keyFirstTs ps k = none := by
  unfold keyCount at h
  unfold keyFirstTs
  rw [List.find?_eq_none.mpr (List.countP_eq_zero.mp h)]
  rfl

theorem keyBytes_eq_zero (ps : List RawPacket) (k : FlowKey)
    (h : keyCount ps k = 0) : keyBytes ps k = 0 := by
  unfold keyCount at h
  unfold keyBytes
  rw [List.filter_eq_nil_iff.mpr (List.countP_eq_zero.mp h)]
  rfl

/-- The central invariant of the packet loop: after consuming `ps`, a key is
absent from the state iff no recognized packet carried it, and a present
key's aggregate holds exactly the recognized-packet count, the byte sum, the
first timestamp and the last timestamp for that key. -/
theorem aggState_lookup (ps : List RawPacket) (k : FlowKey) :
    (keyCount ps k = 0 → lookupFlow (aggState ps) k = none)
    ∧ (keyCount ps k ≠ 0 →
        ∃ f l, keyFirstTs ps k = some f ∧ keyLastTs ps k = some l ∧
          lookupFlow (aggState ps) k = some ⟨keyCount ps k, keyBytes ps k, f, l⟩) := by
  induction ps using List.reverseRecOn with
  | nil =>
      refine ⟨fun _ => rfl, fun h => absurd ?_ h⟩
      rfl
  | append_singleton ps p ih =>
      rcases hp : recognize p with _ | ⟨k0, sz, ts⟩
      · have hs : stepFlow (aggState ps) p = aggState ps := stepFlow_none _ _ hp
        have hr := recognized_snoc_none ps p hp
        simp only [keyCount, keyBytes, keyFirstTs, keyLastTs, hr,
          aggState_append_one, hs]
        exact ih
      · have hrec := recognized_snoc_some ps p _ hp
        by_cases hk : k = k0
        · subst hk
          have hc : keyCount (ps ++ [p]) k = keyCount ps k + 1 := by
            simp [keyCount, hrec, List.countP_append, List.countP_cons]
          have hb : keyBytes (ps ++ [p]) k = keyBytes ps k + sz := by
            simp [keyBytes, hrec, List.filter_append, List.sum_append]
          have hl : keyLastTs (ps ++ [p]) k = some ts := by
            simp [keyLastTs, hrec, List.find?]
          constructor
          · intro h0
            rw [hc] at h0
            cases h0
          · intro _
            rw [aggState_append_one]
            by_cases h0 : keyCount ps k = 0
            · have hlook := ih.1 h0
              have hf : keyFirstTs (ps ++ [p]) k = some ts := by
                unfold keyFirstTs at *
                rw [hrec, List.find?_append,
                  List.find?_eq_none.mpr (List.countP_eq_zero.mp (by
                    unfold keyCount at h0; exact h0))]
                simp [List.find?]
              refine ⟨ts, ts, hf, hl, ?_⟩
              rw [lookupFlow_stepFlow_hit_none _ p k sz ts hp hlook]
              rw [hc, hb, h0, keyBytes_eq_zero ps k h0]
              simp
            · rcases ih.2 h0 with ⟨f, l, hf, hl', hlook⟩
              have hf' : keyFirstTs (ps ++ [p]) k = some f := by
                unfold keyFirstTs at *
                rcases Option.map_eq_some'.mp hf with ⟨r, hr, hrf⟩
                rw [hrec, List.find?_append, hr]
                simpa using hrf
              refine ⟨f, ts, hf', hl, ?_⟩
              rw [lookupFlow_stepFlow_hit_some _ p k sz ts _ hp hlook]
              rw [hc, hb]
        · have hne : ((k0, sz, ts) : FlowKey × Nat × ℚ).1 ≠ k := fun hh => hk hh.symm
          have hc : keyCount (ps ++ [p]) k = keyCount ps k := by
            simp [keyCount, hrec, List.countP_append, List.countP_cons, hne]
          have hb : keyBytes (ps ++ [p]) k = keyBytes ps k := by
            simp [keyBytes, hrec, List.filter_append, List.sum_append, hne]
          have hfind1 : List.find? (fun r => decide (r.1 = k)) [((k0, sz, ts) : FlowKey × Nat × ℚ)] = none := by
            simp [List.find?, hne]
          have hf : keyFirstTs (ps ++ [p]) k = keyFirstTs ps k := by
            unfold keyFirstTs
            rw [hrec, List.find?_append, hfind1, Option.or_none]
          have hl : keyLastTs (ps ++ [p]) k = keyLastTs ps k := by
            unfold keyLastTs
            rw [hrec]
            simp only [List.reverse_append, List.reverse_singleton, List.singleton_append,
              List.find?]
            rw [show (decide (((k0, sz, ts) : FlowKey × Nat × ℚ).1 = k)) = false by
              simp [hne]]
          have hst : lookupFlow (stepFlow (aggState ps) p) k = lookupFlow (aggState ps) k := by
            apply lookupFlow_stepFlow_ne
            intro k1 sz1 ts1 h1
            rw [hp] at h1
            cases h1
            exact hk
          rw [aggState_append_one, hc, hb, hf, hl, hst]
          exact ih

theorem flowKeys_map_of_fst (st : List (FlowKey × FlowAgg))
    (g : FlowKey × FlowAgg → FlowKey × FlowAgg) (hg : ∀ e, (g e).1 = e.1) :
    flowKeys (st.map g) = flowKeys st := by
  unfold flowKeys
  rw [List.map_map]
  apply List.map_congr_left
  intro e _
  exact hg e

theorem aggState_keys_nodup (ps : List RawPacket) :
    (flowKeys (aggState ps)).Nodup := by
  induction ps using List.reverseRecOn with
  | nil => simp [aggState, flowKeys]
  | append_singleton ps p ih =>
      rw [aggState_append_one]
      rcases hp : recognize p with _ | ⟨k0, sz, ts⟩
      · rwa [stepFlow_none _ _ hp]
      · unfold stepFlow
        rw [hp]
        dsimp only
        by_cases hh : (lookupFlow (aggState ps) k0).isSome
        · rw [if_pos hh,
            flowKeys_map_of_fst (aggState ps) _
              (fun e => by by_cases h : e.1 = k0 <;> simp [h])]
          exact ih
        · rw [if_neg hh]
          have hnotin : k0 ∉ flowKeys (aggState ps) := by
            intro hmem
            exact hh ((lookupFlow_isSome_iff_mem _ k0).mpr hmem)
          have : flowKeys (aggState ps ++ [(k0, ⟨1, sz, ts, ts⟩)]) =
              flowKeys (aggState ps) ++ [k0] := by
            simp [flowKeys]
          rw [this]
          simp [List.nodup_append, ih, hnotin]

theorem lookupFlow_of_mem_nodup (st : List (FlowKey × FlowAgg))
    (hnd : (flowKeys st).Nodup) (e : FlowKey × FlowAgg) (he : e ∈ st) :
    lookupFlow st e.1 = some e.2 := by
  induction st with
  | nil => cases he
  | cons x st ih =>
      have hnd' : (flowKeys st).Nodup := (List.nodup_cons.mp hnd).2
      have hni : x.1 ∉ flowKeys st := (List.nodup_cons.mp hnd).1
      rcases List.mem_cons.mp he with h | h
      · subst h
        rw [lookupFlow_cons, if_pos rfl]
      · rw [lookupFlow_cons]
        have hne : x.1 ≠ e.1 := by
          intro hh
          exact hni (hh ▸ List.mem_map.mpr ⟨e, h, rfl⟩)
        rw [if_neg hne]
        exact ih hnd' h

theorem keyOf_emitFlow (e : FlowKey × FlowAgg) : keyOf (emitFlow e) = e.1 := by
  obtain ⟨⟨a, b, c, d, pr⟩, ag⟩ := e
  rfl

theorem keyCount_ne_zero_iff (ps : List RawPacket) (k : FlowKey) :
    keyCount ps k ≠ 0 ↔ k ∈ (recognized ps).map (fun r => r.1) := by
  unfold keyCount
  rw [← Nat.pos_iff_ne_zero, List.countP_pos_iff]
  constructor
  · rintro ⟨r, hr, hk⟩
    exact List.mem_map.mpr ⟨r, hr, by simpa using hk⟩
  · intro h
    rcases List.mem_map.mp h with ⟨r, hr, hk⟩
    exact ⟨r, hr, by simp [hk]⟩

theorem mem_aggState_keys (ps : List RawPacket) (k : FlowKey) :
    k ∈ flowKeys (aggState ps) ↔ keyCount ps k ≠ 0 := by
  rw [← lookupFlow_isSome_iff_mem]
  constructor
  · intro h hc
    rw [(aggState_lookup ps k).1 hc] at h
    simp at h
  · intro h
    rcases (aggState_lookup ps k).2 h with ⟨f, l, _, _, hl⟩
    simp [hl]

/-- Everything C2 and C5 need about one emitted row: its key was carried by
at least one recognized packet, its counters are the exact count/byte-sum of
the recognized packets with its key, its timestamps are the first and last
(arrival order) such packets, and `duration`/`avg_packet_size` are derived
exactly as the parser writes them. -/
theorem mem_parse_characterize (ps : List RawPacket) (r : FlowRecord)
    (hr : r ∈ parse_pcap_to_flows ps) :
    keyCount ps (keyOf r) ≠ 0
    ∧ r.packet_count = keyCount ps (keyOf r)
    ∧ r.total_bytes = keyBytes ps (keyOf r)
    ∧ keyFirstTs ps (keyOf r) = some r.start_time
    ∧ keyLastTs ps (keyOf r) = some r.end_time
    ∧ r.duration = max (r.end_time - r.start_time) 0
    ∧ r.avg_packet_size = (r.total_bytes : ℚ) / (r.packet_count : ℚ) := by
  rcases List.mem_map.mp hr with ⟨e, he, hre⟩
  have hlook := lookupFlow_of_mem_nodup (aggState ps) (aggState_keys_nodup ps) e he
  have hcnt : keyCount ps e.1 ≠ 0 := by
    intro h0
    rw [(aggState_lookup ps e.1).1 h0] at hlook
    cases hlook
  rcases (aggState_lookup ps e.1).2 hcnt with ⟨f, l, hf, hl, hlook2⟩
  rw [hlook] at hlook2
  have he2 : e.2 = ⟨keyCount ps e.1, keyBytes ps e.1, f, l⟩ := Option.some.inj hlook2
  have hk : keyOf r = e.1 := by rw [← hre]; exact keyOf_emitFlow e
  have hcountpos : 0 < e.2.count := by
    rw [he2]
    exact Nat.pos_of_ne_zero hcnt
  subst hre
  rw [hk]
  refine ⟨hcnt, ?_, ?_, ?_, ?_, ?_, ?_⟩
  · show e.2.count = keyCount ps e.1
    rw [he2]
  · show e.2.bytes = keyBytes ps e.1
    rw [he2]
  · show keyFirstTs ps e.1 = some e.2.first
    rw [he2]
    exact hf
  · show keyLastTs ps e.1 = some e.2.last
    rw [he2]
    exact hl
  · rfl
  · show (if 0 < e.2.count then (e.2.bytes : ℚ) / (e.2.count : ℚ) else 0) =
      (e.2.bytes : ℚ) / (e.2.count : ℚ)
    rw [if_pos hcountpos]

/-- C2: the Flow Aggregator emits exactly one row per distinct flow key
among the recognized packets (keys are pairwise distinct and their set
equals the recognized-key set, so the row count is the distinct-key count);
each row's `packet_count` and `total_bytes` are the count and byte sum of
the recognized packets sharing its key; an unrecognized packet (non-IP, or
IP but neither TCP nor UDP) anywhere in the sequence changes nothing and
raises nothing. -/
theorem flow_aggregator_counts (ps : List RawPacket) :
    (parse_pcap_to_flows ps).length = ((recognized ps).map (fun r => r.1)).dedup.length
    ∧ ((parse_pcap_to_flows ps).map keyOf).Nodup
    ∧ (∀ k : FlowKey, k ∈ (parse_pcap_to_flows ps).map keyOf ↔
        k ∈ (recognized ps).map (fun r => r.1))
    ∧ (∀ r ∈ parse_pcap_to_flows ps,
        r.packet_count = keyCount ps (keyOf r) ∧ r.total_bytes = keyBytes ps (keyOf r))
    ∧ (∀ qs₁ qs₂ : List RawPacket, ∀ p : RawPacket, recognize p = none →
        parse_pcap_to_flows (qs₁ ++ p :: qs₂) = parse_pcap_to_flows (qs₁ ++ qs₂)) := by
  have hmapkeys : (parse_pcap_to_flows ps).map keyOf = flowKeys (aggState ps) := by
    unfold parse_pcap_to_flows flowKeys
    rw [List.map_map]
    exact List.map_congr_left (fun e _ => keyOf_emitFlow e)
  have hnd : ((parse_pcap_to_flows ps).map keyOf).Nodup := by
    rw [hmapkeys]
    exact aggState_keys_nodup ps
  have hmem : ∀ k, k ∈ (parse_pcap_to_flows ps).map keyOf ↔
      k ∈ (recognized ps).map (fun r => r.1) := by
    intro k
    rw [hmapkeys, mem_aggState_keys, keyCount_ne_zero_iff]
  refine ⟨?_, hnd, hmem, ?_, ?_⟩
  · calc (parse_pcap_to_flows ps).length
        = ((parse_pcap_to_flows ps).map keyOf).length := (List.length_map _ _).symm
      _ = ((parse_pcap_to_flows ps).map keyOf).toFinset.card :=
          (List.toFinset_card_of_nodup hnd).symm
      _ = ((recognized ps).map (fun r => r.1)).toFinset.card := by
          congr 1
          ext k
          simp only [List.mem_toFinset]
          exact hmem k
      _ = ((recognized ps).map (fun r => r.1)).dedup.length := List.card_toFinset _
  · intro r hr
    obtain ⟨_, h2, h3, _⟩ := mem_parse_characterize ps r hr
    exact ⟨h2, h3⟩
  · intro qs₁ qs₂ p hp
    unfold parse_pcap_to_flows
    congr 1
    rw [List.foldl_append, List.foldl_cons, stepFlow_none _ _ hp, ← List.foldl_append]

theorem parse_psW : parse_pcap_to_flows psW = [rW] := by
  simp [parse_pcap_to_flows, psW, rW, stepFlow, recognize, lookupFlow, emitFlow, List.find?]
  norm_num

theorem rW_mem : rW ∈ parse_pcap_to_flows psW := by
  rw [parse_psW]
  exact List.mem_singleton.mpr rfl

/-- Witness for C2 on the concrete capture `psW`. -/
theorem flow_aggregator_counts_witness :
    rW.packet_count = keyCount psW (keyOf rW) ∧ rW.total_bytes = keyBytes psW (keyOf rW) := by
  obtain ⟨_, _, _, h4, _⟩ := flow_aggregator_counts psW
  exact h4 rW rW_mem

/-- C5: every emitted FlowRecord has `packet_count ≥ 1`, its `start_time` is
the timestamp of the first recognized packet of its key, its `end_time` the
timestamp of the last such packet in arrival order (last write wins),
`duration = max(end_time − start_time, 0) ≥ 0`, and
`avg_packet_size = total_bytes / packet_count` exactly. -/
theorem flow_record_invariants (ps : List RawPacket) (r : FlowRecord)
    (hr : r ∈ parse_pcap_to_flows ps) :
    1 ≤ r.packet_count
    ∧ keyFirstTs ps (keyOf r) = some r.start_time
    ∧ keyLastTs ps (keyOf r) = some r.end_time
    ∧ r.duration = max (r.end_time - r.start_time) 0
    ∧ 0 ≤ r.duration
    ∧ r.avg_packet_size = (r.total_bytes : ℚ) / (r.packet_count : ℚ) := by
  obtain ⟨h1, h2, _, h4, h5, h6, h7⟩ := mem_parse_characterize ps r hr
  refine ⟨?_, h4, h5, h6, ?_, h7⟩
  · rw [h2]
    exact Nat.one_le_iff_ne_zero.mpr h1
  · rw [h6]
    exact le_max_right _ _

/-- Witness for C5 on the concrete capture `psW` and its emitted row `rW`. -/
theorem flow_record_invariants_witness :
    1 ≤ rW.packet_count
    ∧ keyFirstTs psW (keyOf rW) = some rW.start_time
    ∧ keyLastTs psW (keyOf rW) = some rW.end_time
    ∧ rW.duration = max (rW.end_time - rW.start_time) 0
    ∧ 0 ≤ rW.duration
    ∧ rW.avg_packet_size = (rW.total_bytes : ℚ) / (rW.packet_count : ℚ) :=
  flow_record_invariants psW rW rW_mem

/-! ### Rule engine lemmas -/
theorem requiredSubset_iff (req cols : List String) :
    requiredSubset req cols = true ↔ ∀ c ∈ req, c ∈ cols := by
  unfold requiredSubset
  simp [List.all_eq_true]

theorem isEmpty_false_of_ne (t : DTable) (hr : t.rows ≠ []) (hc : t.cols ≠ []) :
    t.isEmpty = false := by
  unfold DTable.isEmpty
  simp [List.isEmpty_iff, hr, hc]

/-- C3: the bruteforce-like detector fires iff some flow targets a
sensitive port and (sensitive-flow count ≥ 30 or their packet sum ≥ 1000);
every finding it emits is severity "high" (the "medium" branch cannot be
reached because the gate and the escalation test use the same thresholds),
and `flows_affected` is the sensitive-flow count. -/
theorem bruteforce_rule_iff (flows : DTable)
    (h1 : "dst_port" ∈ flows.cols) (h2 : "packet_count" ∈ flows.cols) :
    ((rule_bruteforce_like flows).isSome ↔
      ((∃ r ∈ flows.rows, r "dst_port" ∈ SENSITIVE_PORTS)
        ∧ (30 ≤ (sensitiveRows flows.rows).length
          ∨ (1000 : ℚ) ≤ packetSum (sensitiveRows flows.rows))))
    ∧ (∀ f, rule_bruteforce_like flows = some f →
        f.severity = "high" ∧ f.flows_affected = (sensitiveRows flows.rows).length) := by
  by_cases hrow : flows.rows = []
  · have hempty : flows.isEmpty = true := by
      unfold DTable.isEmpty
      simp [hrow]
    constructor
    · rw [show rule_bruteforce_like flows = none by unfold rule_bruteforce_like; simp [hempty]]
      simp [hrow]
    · intro f hf
      rw [show rule_bruteforce_like flows = none by
        unfold rule_bruteforce_like; simp [hempty]] at hf
      cases hf
  · have hcols : flows.cols ≠ [] := by
      intro h
      rw [h] at h1
      cases h1
    have hempty : flows.isEmpty = false := isEmpty_false_of_ne flows hrow hcols
    have hreq : requiredSubset ["dst_port", "packet_count"] flows.cols = true := by
      rw [requiredSubset_iff]
      intro c hc
      simp only [List.mem_cons, List.not_mem_nil, or_false] at hc
      rcases hc with rfl | rfl
      · exact h1
      · exact h2
    have hrule : rule_bruteforce_like flows =
        (if (sensitiveRows flows.rows).isEmpty then none
         else if (sensitiveRows flows.rows).length < BRUTE_FLOW_COUNT_THRESHOLD
             ∧ packetSum (sensitiveRows flows.rows) < BRUTE_PACKET_THRESHOLD then none
         else some
          { rule_id := "PV02_BRUTEFORCE_LIKE",
            severity :=
              if BRUTE_FLOW_COUNT_THRESHOLD ≤ (sensitiveRows flows.rows).length
                  ∨ BRUTE_PACKET_THRESHOLD ≤ packetSum (sensitiveRows flows.rows) then "high"
              else "medium",
            flows_affected := (sensitiveRows flows.rows).length }) := by
      unfold rule_bruteforce_like sensitiveRows packetSum
      simp only [hempty, hreq, Bool.false_eq_true, if_false, not_true, if_neg,
        Bool.true_eq_false]
    by_cases hs : sensitiveRows flows.rows = []
    · rw [hrule, if_pos (by simp [hs])]
      constructor
      · simp only [Option.isSome_none, Bool.false_eq_true, false_iff]
        rintro ⟨⟨r, hr, hmem⟩, _⟩
        have : r ∈ sensitiveRows flows.rows := by
          unfold sensitiveRows
          rw [List.mem_filter]
          exact ⟨hr, by simpa using hmem⟩
        rw [hs] at this
        cases this
      · intro f hf
        cases hf
    · have hsne : ((sensitiveRows flows.rows).isEmpty) = false := by
        simp [List.isEmpty_iff, hs]
      rw [hrule, if_neg (by simp [hsne])]
      by_cases hcond : (sensitiveRows flows.rows).length < BRUTE_FLOW_COUNT_THRESHOLD
          ∧ packetSum (sensitiveRows flows.rows) < BRUTE_PACKET_THRESHOLD
      · rw [if_pos hcond]
        constructor
        · simp only [Option.isSome_none, Bool.false_eq_true, false_iff]
          rintro ⟨_, h30 | h1000⟩
          · exact absurd hcond.1 (by unfold BRUTE_FLOW_COUNT_THRESHOLD; omega)
          · exact absurd hcond.2 (not_lt.mpr h1000)
        · intro f hf
          cases hf
      · rw [if_neg hcond]
        have hor : BRUTE_FLOW_COUNT_THRESHOLD ≤ (sensitiveRows flows.rows).length
            ∨ BRUTE_PACKET_THRESHOLD ≤ packetSum (sensitiveRows flows.rows) := by
          rcases not_and_or.mp hcond with h | h
          · exact Or.inl (not_lt.mp h)
          · exact Or.inr (not_lt.mp h)
        constructor
        · simp only [Option.isSome_some, true_iff]
          refine ⟨?_, ?_⟩
          · rcases List.exists_mem_of_ne_nil _ hs with ⟨r, hr⟩
            unfold sensitiveRows at hr
            have hmf := List.mem_filter.mp hr
            exact ⟨r, hmf.1, by simpa using hmf.2⟩
          · simpa [BRUTE_FLOW_COUNT_THRESHOLD, BRUTE_PACKET_THRESHOLD] using hor
        · intro f hf
          have hf' := Option.some.inj hf
          rw [← hf']
          refine ⟨?_, rfl⟩
          show (if _ then "high" else "medium") = "high"
          rw [if_pos hor]

theorem isEmpty_false_iff (t : DTable) :
    t.isEmpty = false ↔ t.rows ≠ [] ∧ t.cols ≠ [] := by
  unfold DTable.isEmpty
  simp [List.isEmpty_iff]

theorem port_scan_inv (flows : DTable) (f : RuleFinding)
    (h : rule_port_scan flows = some f) :
    flows.isEmpty = false
    ∧ requiredSubset ["src_ip", "dst_port", "packet_count", "duration"] flows.cols = true
    ∧ suspiciousSources flows.rows ≠ []
    ∧ f = ⟨"PV01_PORT_SCAN", "high",
        (flows.rows.filter
          (fun r => decide (r "src_ip" ∈ suspiciousSources flows.rows))).length⟩ := by
  unfold rule_port_scan at h
  split at h
  · cases h
  · rename_i hemp
    split at h
    · cases h
    · rename_i hreq
      simp only [] at h
      split at h
      · cases h
      · rename_i hsus
        refine ⟨by simpa using hemp, by simpa using hreq, ?_, ?_⟩
        · intro hnil
          apply hsus
          show (suspiciousSources flows.rows).isEmpty = true
          simp [hnil]
        · exact (Option.some.inj h).symm

theorem port_scan_intro (flows : DTable)
    (hemp : flows.isEmpty = false)
    (hreq : requiredSubset ["src_ip", "dst_port", "packet_count", "duration"] flows.cols = true)
    (hsus : suspiciousSources flows.rows ≠ []) :
    rule_port_scan flows = some ⟨"PV01_PORT_SCAN", "high",
      (flows.rows.filter
        (fun r => decide (r "src_ip" ∈ suspiciousSources flows.rows))).length⟩ := by
  unfold rule_port_scan
  split
  · rename_i hcc
    rw [hemp] at hcc
    cases hcc
  · simp only []
    split
    · rename_i hcc
      rw [List.isEmpty_iff] at hcc
      exact absurd hcc hsus
    · rfl

theorem bruteforce_inv (flows : DTable) (f : RuleFinding)
    (h : rule_bruteforce_like flows = some f) :
    flows.isEmpty = false
    ∧ requiredSubset ["dst_port", "packet_count"] flows.cols = true
    ∧ sensitiveRows flows.rows ≠ []
    ∧ (BRUTE_FLOW_COUNT_THRESHOLD ≤ (sensitiveRows flows.rows).length
        ∨ BRUTE_PACKET_THRESHOLD ≤ packetSum (sensitiveRows flows.rows))
    ∧ f = ⟨"PV02_BRUTEFORCE_LIKE", "high", (sensitiveRows flows.rows).length⟩ := by
  unfold rule_bruteforce_like at h
  split at h
  · cases h
  · rename_i hemp
    split at h
    · cases h
    · rename_i hreq
      simp only [] at h
      split at h
      · cases h
      · rename_i hsens
        split at h
        · cases h
        · rename_i hcond
          have hor : BRUTE_FLOW_COUNT_THRESHOLD ≤ (sensitiveRows flows.rows).length
              ∨ BRUTE_PACKET_THRESHOLD ≤ packetSum (sensitiveRows flows.rows) := by
            rcases not_and_or.mp hcond with hh | hh
            · exact Or.inl (not_lt.mp hh)
            · exact Or.inr (not_lt.mp hh)
          refine ⟨by simpa using hemp, by simpa using hreq, ?_, hor, ?_⟩
          · intro hnil
            apply hsens
            show (sensitiveRows flows.rows).isEmpty = true
            simp [sensitiveRows] at hnil ⊢
            exact hnil
          · rw [← Option.some.inj h]
            congr 1
            exact if_pos hor

theorem bruteforce_intro (flows : DTable)
    (hemp : flows.isEmpty = false)
    (hreq : requiredSubset ["dst_port", "packet_count"] flows.cols = true)
    (hsens : sensitiveRows flows.rows ≠ [])
    (hor : BRUTE_FLOW_COUNT_THRESHOLD ≤ (sensitiveRows flows.rows).length
      ∨ BRUTE_PACKET_THRESHOLD ≤ packetSum (sensitiveRows flows.rows)) :
    rule_bruteforce_like flows =
      some ⟨"PV02_BRUTEFORCE_LIKE", "high", (sensitiveRows flows.rows).length⟩ := by
  unfold rule_bruteforce_like
  split
  · rename_i hcc
    rw [hemp] at hcc
    cases hcc
  · simp only []
    split
    · rename_i hcc
      rw [List.isEmpty_iff] at hcc
      exact absurd hcc hsens
    · split
      · rename_i hcc
        rcases hor with hh | hh
        · exact absurd hcc.1 (not_lt.mpr hh)
        · exact absurd hcc.2 (not_lt.mpr hh)
      · show some (RuleFinding.mk "PV02_BRUTEFORCE_LIKE"
            (if BRUTE_FLOW_COUNT_THRESHOLD ≤ (sensitiveRows flows.rows).length
                ∨ BRUTE_PACKET_THRESHOLD ≤ packetSum (sensitiveRows flows.rows) then "high"
              else "medium")
            (sensitiveRows flows.rows).length) = _
        rw [if_pos hor]

theorem dns_inv (flows : DTable) (f : RuleFinding)
    (h : rule_dns_tunnel_like flows = some f) :
    flows.isEmpty = false
    ∧ requiredSubset ["dst_port", "packet_count", "total_bytes"] flows.cols = true
    ∧ dnsRows flows.rows ≠ []
    ∧ ¬(pyInt (packetSum (dnsRows flows.rows)) < DNS_PKT_THRESHOLD
        ∧ pyInt (byteSum (dnsRows flows.rows)) < DNS_BYTES_THRESHOLD)
    ∧ f = ⟨"PV03_DNS_TUNNEL_LIKE",
        if DNS_PKT_THRESHOLD * 2 ≤ pyInt (packetSum (dnsRows flows.rows))
            ∨ DNS_BYTES_THRESHOLD * 2 ≤ pyInt (byteSum (dnsRows flows.rows)) then "high"
        else "medium",
        (dnsRows flows.rows).length⟩ := by
  unfold rule_dns_tunnel_like at h
  split at h
  · cases h
  · rename_i hemp
    split at h
    · cases h
    · rename_i hreq
      simp only [] at h
      split at h
      · cases h
      · rename_i hdns
        split at h
        · cases h
        · rename_i hcond
          refine ⟨by simpa using hemp, by simpa using hreq, ?_, hcond, ?_⟩
          · intro hnil
            apply hdns
            show (dnsRows flows.rows).isEmpty = true
            simp [dnsRows] at hnil ⊢
            exact hnil
          · exact (Option.some.inj h).symm

theorem dns_intro (flows : DTable)
    (hemp : flows.isEmpty = false)
    (hreq : requiredSubset ["dst_port", "packet_count", "total_bytes"] flows.cols = true)
    (hdns : dnsRows flows.rows ≠ [])
    (hcond : ¬(pyInt (packetSum (dnsRows flows.rows)) < DNS_PKT_THRESHOLD
      ∧ pyInt (byteSum (dnsRows flows.rows)) < DNS_BYTES_THRESHOLD)) :
    rule_dns_tunnel_like flows =
      some ⟨"PV03_DNS_TUNNEL_LIKE",
        if DNS_PKT_THRESHOLD * 2 ≤ pyInt (packetSum (dnsRows flows.rows))
            ∨ DNS_BYTES_THRESHOLD * 2 ≤ pyInt (byteSum (dnsRows flows.rows)) then "high"
        else "medium",
        (dnsRows flows.rows).length⟩ := by
  unfold rule_dns_tunnel_like
  split
  · rename_i hcc
    rw [hemp] at hcc
    cases hcc
  · simp only []
    split
    · rename_i hcc
      rw [List.isEmpty_iff] at hcc
      exact absurd hcc hdns
    · split
      · rename_i hcc
        exact absurd hcc hcond
      · rfl

/-! ### The engine: findings, score and level -/
theorem foldl_add_eq_sum (l : List RuleFinding) (g : RuleFinding → Int) (init : Int) :
    l.foldl (fun acc x => acc + g x) init = init + (l.map g).sum := by
  induction l generalizing init with
  | nil => simp
  | cons a l ih =>
      simp only [List.foldl_cons, List.map_cons, List.sum_cons]
      rw [ih]
      ring

theorem analyze_findings_eq (flows : DTable) :
    (analyze_flows_with_rules flows).findings =
      [rule_port_scan flows, rule_bruteforce_like flows,
        rule_dns_tunnel_like flows].filterMap id := rfl

theorem analyze_num_findings (flows : DTable) :
    (analyze_flows_with_rules flows).num_findings =
      (analyze_flows_with_rules flows).findings.length := rfl

theorem analyze_level_eq (flows : DTable) :
    (analyze_flows_with_rules flows).risk_level =
      score_to_level (analyze_flows_with_rules flows).risk_score := rfl

theorem analyze_score_eq (flows : DTable) :
    (analyze_flows_with_rules flows).risk_score =
      ((analyze_flows_with_rules flows).findings.map
        (fun f => severityWeightGet f.severity)).sum := by
  show List.foldl _ 0 _ = _
  rw [foldl_add_eq_sum]
  simp [analyze_findings_eq]

theorem mem_findings (flows : DTable) (f : RuleFinding)
    (h : f ∈ (analyze_flows_with_rules flows).findings) :
    rule_port_scan flows = some f ∨ rule_bruteforce_like flows = some f
      ∨ rule_dns_tunnel_like flows = some f := by
  rw [analyze_findings_eq] at h
  rcases List.mem_filterMap.mp h with ⟨a, ha, haf⟩
  simp only [List.mem_cons, List.not_mem_nil, or_false] at ha
  rcases ha with rfl | rfl | rfl
  · exact Or.inl haf
  · exact Or.inr (Or.inl haf)
  · exact Or.inr (Or.inr haf)

/-- Every finding the engine can emit carries severity "medium" or "high":
the port-scan and bruteforce rules only write "high", the DNS rule one of
the two. -/
theorem findings_severity (flows : DTable) (f : RuleFinding)
    (h : f ∈ (analyze_flows_with_rules flows).findings) :
    f.severity = "medium" ∨ f.severity = "high" := by
  rcases mem_findings flows f h with h | h | h
  · exact Or.inr (by rw [(port_scan_inv flows f h).2.2.2])
  · exact Or.inr (by rw [(bruteforce_inv flows f h).2.2.2.2])
  · rcases dns_inv flows f h with ⟨_, _, _, _, hf⟩
    rw [hf]
    dsimp only
    split
    · exact Or.inr rfl
    · exact Or.inl rfl

theorem findings_length_le (flows : DTable) :
    (analyze_flows_with_rules flows).findings.length ≤ 3 := by
  rw [analyze_findings_eq]
  simpa using List.length_filterMap_le id
    [rule_port_scan flows, rule_bruteforce_like flows, rule_dns_tunnel_like flows]

theorem sum_bounds_of_mem (l : List Int) (h : ∀ x ∈ l, 0 ≤ x ∧ x ≤ 3) :
    0 ≤ l.sum ∧ l.sum ≤ 3 * l.length := by
  induction l with
  | nil => simp
  | cons a l ih =>
      have ha := h a (List.mem_cons_self a l)
      have hl := ih (fun x hx => h x (List.mem_cons_of_mem a hx))
      constructor
      · simp only [List.sum_cons]
        linarith [hl.1, ha.1]
      · simp only [List.sum_cons, List.length_cons]
        push_cast
        linarith [hl.2, ha.2]

theorem severityWeightGet_medium : severityWeightGet "medium" = 2 := by rfl

theorem severityWeightGet_high : severityWeightGet "high" = 3 := by rfl

theorem score_to_level_mono (a b : Int) (hab : a ≤ b) :
    levelRank (score_to_level a) ≤ levelRank (score_to_level b) := by
  unfold score_to_level
  split_ifs <;> simp [levelRank] <;> omega

/-- C10: the Rule Engine emits at most three findings; every emitted
severity is "medium" or "high" (never "low" or "critical"); hence the score
lies in [0, 9]; and `num_findings` always equals the findings-list
length. -/
theorem rule_engine_invariants (flows : DTable) :
    (analyze_flows_with_rules flows).findings.length ≤ 3
    ∧ (∀ f ∈ (analyze_flows_with_rules flows).findings,
        f.severity = "medium" ∨ f.severity = "high")
    ∧ (∀ f ∈ (analyze_flows_with_rules flows).findings,
        f.severity ≠ "low" ∧ f.severity ≠ "critical")
    ∧ 0 ≤ (analyze_flows_with_rules flows).risk_score
    ∧ (analyze_flows_with_rules flows).risk_score ≤ 9
    ∧ (analyze_flows_with_rules flows).num_findings =
        (analyze_flows_with_rules flows).findings.length := by
  have hsev := findings_severity flows
  have hbounds : ∀ x ∈ (analyze_flows_with_rules flows).findings.map
      (fun f => severityWeightGet f.severity), 0 ≤ x ∧ x ≤ 3 := by
    intro x hx
    rcases List.mem_map.mp hx with ⟨f, hf, hxf⟩
    rcases hsev f hf with hh | hh <;>
      simp [← hxf, hh, severityWeightGet_medium, severityWeightGet_high]
  have hsum := sum_bounds_of_mem _ hbounds
  have hlen := findings_length_le flows
  refine ⟨hlen, hsev, ?_, ?_, ?_, analyze_num_findings flows⟩
  · intro f hf
    rcases hsev f hf with hh | hh <;> rw [hh] <;> exact ⟨by simp, by simp⟩
  · rw [analyze_score_eq]
    exact hsum.1
  · rw [analyze_score_eq]
    have hlenmap : ((analyze_flows_with_rules flows).findings.map
        (fun f => severityWeightGet f.severity)).length ≤ 3 := by
      rw [List.length_map]
      exact hlen
    calc ((analyze_flows_with_rules flows).findings.map
            (fun f => severityWeightGet f.severity)).sum
        ≤ 3 * ((analyze_flows_with_rules flows).findings.map
            (fun f => severityWeightGet f.severity)).length := hsum.2
      _ ≤ 9 := by omega

/-- C6: `risk_score` is the sum of the findings' severity weights drawn
from the weight table (every emitted severity is a key of the table, so the
dictionary default never engages); `risk_level` is a monotone step function
of the score with breakpoints 0 → none, 1–3 → low, 4–7 → medium,
> 7 → high; score 0 maps to the lowest level. -/
theorem risk_score_level (flows : DTable) (a b : Int) :
    ((analyze_flows_with_rules flows).risk_score =
      ((analyze_flows_with_rules flows).findings.map
        (fun f => severityWeightGet f.severity)).sum)
    ∧ (∀ f ∈ (analyze_flows_with_rules flows).findings,
        (SEVERITY_WEIGHTS.find? (fun e => e.1 == f.severity)).isSome)
    ∧ (analyze_flows_with_rules flows).risk_level =
        score_to_level (analyze_flows_with_rules flows).risk_score
    ∧ (a ≤ b → levelRank (score_to_level a) ≤ levelRank (score_to_level b))
    ∧ score_to_level 0 = "none"
    ∧ (1 ≤ a ∧ a ≤ 3 → score_to_level a = "low")
    ∧ (4 ≤ a ∧ a ≤ 7 → score_to_level a = "medium")
    ∧ (7 < a → score_to_level a = "high") := by
  refine ⟨analyze_score_eq flows, ?_, analyze_level_eq flows,
    score_to_level_mono a b, by rfl, ?_, ?_, ?_⟩
  · intro f hf
    rcases findings_severity flows f hf with hh | hh <;> rw [hh] <;> rfl
  · rintro ⟨h1, h3⟩
    unfold score_to_level
    rw [if_neg (by omega), if_pos h3]
  · rintro ⟨h4, h7⟩
    unfold score_to_level
    rw [if_neg (by omega), if_neg (by omega), if_pos h7]
  · intro h7
    unfold score_to_level
    rw [if_neg (by omega), if_neg (by omega), if_neg (by omega)]

/-- C9 helper lemmas: each detector silently reports nothing when a column
it needs is not among the table's columns. -/
theorem port_scan_missing (flows : DTable)
    (h : ∃ c ∈ ["src_ip", "dst_port", "packet_count", "duration"], c ∉ flows.cols) :
    rule_port_scan flows = none := by
  by_cases hemp : flows.isEmpty
  · unfold rule_port_scan
    rw [if_pos hemp]
  · have hreq : ¬ requiredSubset ["src_ip", "dst_port", "packet_count", "duration"]
        flows.cols = true := by
      rw [requiredSubset_iff]
      push_neg
      exact h
    unfold rule_port_scan
    rw [if_neg hemp, if_pos hreq]

theorem bruteforce_missing (flows : DTable)
    (h : ∃ c ∈ ["dst_port", "packet_count"], c ∉ flows.cols) :
    rule_bruteforce_like flows = none := by
  by_cases hemp : flows.isEmpty
  · unfold rule_bruteforce_like
    rw [if_pos hemp]
  · have hreq : ¬ requiredSubset ["dst_port", "packet_count"] flows.cols = true := by
      rw [requiredSubset_iff]
      push_neg
      exact h
    unfold rule_bruteforce_like
    rw [if_neg hemp, if_pos hreq]

theorem dns_missing (flows : DTable)
    (h : ∃ c ∈ ["dst_port", "packet_count", "total_bytes"], c ∉ flows.cols) :
    rule_dns_tunnel_like flows = none := by
  by_cases hemp : flows.isEmpty
  · unfold rule_dns_tunnel_like
    rw [if_pos hemp]
  · have hreq : ¬ requiredSubset ["dst_port", "packet_count", "total_bytes"]
        flows.cols = true := by
      rw [requiredSubset_iff]
      push_neg
      exact h
    unfold rule_dns_tunnel_like
    rw [if_neg hemp, if_pos hreq]

/-- C9: a detector lacking one of its required columns returns no finding
instead of raising, and the engine still returns a well-formed
RiskAssessment (level bucketed from the score, score the weight sum,
`num_findings` consistent). -/
theorem detectors_missing_columns (flows : DTable) :
    ((∃ c ∈ ["src_ip", "dst_port", "packet_count", "duration"], c ∉ flows.cols) →
        rule_port_scan flows = none)
    ∧ ((∃ c ∈ ["dst_port", "packet_count"], c ∉ flows.cols) →
        rule_bruteforce_like flows = none)
    ∧ ((∃ c ∈ ["dst_port", "packet_count", "total_bytes"], c ∉ flows.cols) →
        rule_dns_tunnel_like flows = none)
    ∧ (analyze_flows_with_rules flows).num_findings =
        (analyze_flows_with_rules flows).findings.length
    ∧ (analyze_flows_with_rules flows).risk_level =
        score_to_level (analyze_flows_with_rules flows).risk_score
    ∧ (analyze_flows_with_rules flows).risk_score =
        ((analyze_flows_with_rules flows).findings.map
          (fun f => severityWeightGet f.severity)).sum :=
  ⟨port_scan_missing flows, bruteforce_missing flows, dns_missing flows,
    analyze_num_findings flows, analyze_level_eq flows, analyze_score_eq flows⟩

theorem sensitiveRows_tableB : sensitiveRows tableB.rows = [rowB] := by
  simp [sensitiveRows, tableB, rowB, SENSITIVE_PORTS, List.filter]

theorem rule_port_scan_tableB : rule_port_scan tableB = none := by
  apply port_scan_missing
  exact ⟨"src_ip", by simp, by simp [tableB]⟩

theorem rule_bruteforce_tableB :
    rule_bruteforce_like tableB = some ⟨"PV02_BRUTEFORCE_LIKE", "high", 1⟩ := by
  have hps : packetSum (sensitiveRows tableB.rows) = 1000 := by
    rw [sensitiveRows_tableB]
    simp [packetSum, rowB, Val.toQ]
  have h := bruteforce_intro tableB
    (by simp [tableB, DTable.isEmpty])
    (by rw [requiredSubset_iff]; intro c hc; simpa [tableB] using hc)
    (by rw [sensitiveRows_tableB]; simp)
    (Or.inr (by rw [hps]; exact le_refl 1000))
  rw [h, sensitiveRows_tableB]
  rfl

theorem rule_dns_tableB : rule_dns_tunnel_like tableB = none := by
  apply dns_missing
  exact ⟨"total_bytes", by simp, by simp [tableB]⟩

theorem analyze_tableB :
    analyze_flows_with_rules tableB =
      ⟨"low", 3, 1, [⟨"PV02_BRUTEFORCE_LIKE", "high", 1⟩]⟩ := by
  unfold analyze_flows_with_rules
  rw [rule_port_scan_tableB, rule_bruteforce_tableB, rule_dns_tableB]
  rfl

/-- Witness for C3 at `tableB`: one SSH flow with 1000 packets makes the
detector fire. -/
theorem bruteforce_rule_iff_witness :
    (rule_bruteforce_like tableB).isSome = true := by
  obtain ⟨hiff, _⟩ := bruteforce_rule_iff tableB (by simp [tableB]) (by simp [tableB])
  apply hiff.mpr
  constructor
  · exact ⟨rowB, by simp [tableB], by simp [rowB, SENSITIVE_PORTS]⟩
  · right
    rw [show packetSum (sensitiveRows tableB.rows) = 1000 by
      rw [sensitiveRows_tableB]; simp [packetSum, rowB, Val.toQ]]

/-- Witness for C10 at `tableB`. -/
theorem rule_engine_invariants_witness :
    (analyze_flows_with_rules tableB).findings.length ≤ 3
    ∧ ((⟨"PV02_BRUTEFORCE_LIKE", "high", 1⟩ : RuleFinding).severity = "medium"
        ∨ (⟨"PV02_BRUTEFORCE_LIKE", "high", 1⟩ : RuleFinding).severity = "high")
    ∧ 0 ≤ (analyze_flows_with_rules tableB).risk_score
    ∧ (analyze_flows_with_rules tableB).risk_score ≤ 9
    ∧ (analyze_flows_with_rules tableB).num_findings =
        (analyze_flows_with_rules tableB).findings.length := by
  obtain ⟨h1, h2, _, h4, h5, h6⟩ := rule_engine_invariants tableB
  refine ⟨h1, h2 _ ?_, h4, h5, h6⟩
  rw [analyze_tableB]
  exact List.mem_singleton.mpr rfl

/-- Witness for C6 at `tableB` and concrete scores. -/
theorem risk_score_level_witness :
    ((analyze_flows_with_rules tableB).risk_score =
      ((analyze_flows_with_rules tableB).findings.map
        (fun f => severityWeightGet f.severity)).sum)
    ∧ levelRank (score_to_level 2) ≤ levelRank (score_to_level 5)
    ∧ score_to_level 0 = "none"
    ∧ score_to_level 2 = "low"
    ∧ score_to_level 5 = "medium"
    ∧ score_to_level 9 = "high" := by
  obtain ⟨h1, _, _, hmono, h0, hl, _, _⟩ := risk_score_level tableB 2 5
  obtain ⟨_, _, _, _, _, _, hmd, _⟩ := risk_score_level tableB 5 5
  obtain ⟨_, _, _, _, _, _, _, hh⟩ := risk_score_level tableB 9 9
  exact ⟨h1, hmono (by omega), h0, hl (by omega), hmd (by omega), hh (by omega)⟩

/-- Witness for C9 at `tableM`, which lacks each detector's required
columns. -/
theorem detectors_missing_columns_witness :
    rule_port_scan tableM = none
    ∧ rule_bruteforce_like tableM = none
    ∧ rule_dns_tunnel_like tableM = none := by
  obtain ⟨hp, hb, hd, _⟩ := detectors_missing_columns tableM
  exact ⟨hp ⟨"src_ip", by simp, by simp [tableM]⟩,
    hb ⟨"dst_port", by simp, by simp [tableM]⟩,
    hd ⟨"dst_port", by simp, by simp [tableM]⟩⟩

/-- C4 as stated is false on the code: for a flow of duration
1/2000000 (inside (0, ε)) the builder computes
`pkts_per_sec = 1 / duration = 2000000`, while the claimed formula
`packet_count / max(duration, ε)` gives 1000000. -/
theorem feature_rate_not_max_eps :
    (FTable.findCol (build_features [rEps]) "pkts_per_sec").map (fun e => e.2) =
      some [(2000000 : ℚ)]
    ∧ [rEps].map (fun f => spec_rate (f.packet_count : ℚ) f.duration) = [(1000000 : ℚ)]
    ∧ (FTable.findCol (build_features [rEps]) "pkts_per_sec").map (fun e => e.2) ≠
        some ([rEps].map (fun f => spec_rate (f.packet_count : ℚ) f.duration)) := by
  have h1 : (FTable.findCol (build_features [rEps]) "pkts_per_sec").map (fun e => e.2) =
      some [(2000000 : ℚ)] := by
    simp [build_features, FTable.findCol, List.find?, rEps, safe_divide, epsSafe]
  have h2 : [rEps].map (fun f => spec_rate (f.packet_count : ℚ) f.duration) =
      [(1000000 : ℚ)] := by
    have hmax : max ((1 : ℚ) / 2000000) epsSafe = 1 / 1000000 := by
      rw [max_eq_right (by norm_num [epsSafe])]
      rfl
    norm_num [spec_rate, rEps, hmax]
  refine ⟨h1, h2, ?_⟩
  rw [h1, h2]
  intro h
  have hinj := Option.some.inj h
  simp at hinj

/-- C4 (amended): the Feature Builder computes
`pkts_per_sec = packet_count / d` and `bytes_per_sec = total_bytes / d`
where `d` is the duration with zeros — and only zeros — replaced by
ε = 1e-6 (`denominator.replace(0, eps)`); `d` is never zero, so no
division-by-zero is ever raised, including at duration 0. The spec's
`max(duration, ε)` denominator agrees except when 0 < duration < ε. -/
theorem feature_rates_safe (flows : List FlowRecord) (hne : flows ≠ []) :
    FTable.findCol (build_features flows) "pkts_per_sec" =
      some ("pkts_per_sec", flows.map (fun f =>
        (f.packet_count : ℚ) / (if f.duration = 0 then epsSafe else f.duration)))
    ∧ FTable.findCol (build_features flows) "bytes_per_sec" =
      some ("bytes_per_sec", flows.map (fun f =>
        (f.total_bytes : ℚ) / (if f.duration = 0 then epsSafe else f.duration)))
    ∧ ∀ f ∈ flows, (if f.duration = 0 then epsSafe else f.duration) ≠ 0 := by
  have hB : ¬ flows.isEmpty = true := by
    simpa [List.isEmpty_iff] using hne
  refine ⟨?_, ?_, ?_⟩
  · unfold build_features
    rw [if_neg hB]
    simp [FTable.findCol, List.find?]
    intro a _
    rfl
  · unfold build_features
    rw [if_neg hB]
    simp [FTable.findCol, List.find?]
    intro a _
    rfl
  · intro f _
    split
    · unfold epsSafe
      norm_num
    · assumption

/-- Witness for the amended C4 at the one-row flow list `[rW]`. -/
theorem feature_rates_safe_witness :
    FTable.findCol (build_features [rW]) "pkts_per_sec" =
      some ("pkts_per_sec", [rW].map (fun f =>
        (f.packet_count : ℚ) / (if f.duration = 0 then epsSafe else f.duration)))
    ∧ FTable.findCol (build_features [rW]) "bytes_per_sec" =
      some ("bytes_per_sec", [rW].map (fun f =>
        (f.total_bytes : ℚ) / (if f.duration = 0 then epsSafe else f.duration)))
    ∧ ∀ f ∈ [rW], (if f.duration = 0 then epsSafe else f.duration) ≠ 0 :=
  feature_rates_safe [rW] (by simp)

theorem nrows_align_of_empty_features (s : List String) :
    FTable.nrows (align_features_for_inference [] s) = 0 := by
  rw [align_eq_map]
  cases s with
  | nil => rfl
  | cons c s => simp [FTable.nrows, colVal, FTable.findCol, List.find?]

/-- C7: on an empty batch every stage is neutral and total: the aggregator
returns zero rows under the full 11-column schema; the feature builder
returns the empty frame; the rule engine returns score 0, level "none", no
findings; the scoring façade returns no verdicts for every possible model
(its result does not depend on the classifier, which is never invoked). -/
theorem empty_batch_neutral :
    parse_pcap_to_flows [] = []
    ∧ parseFlowsTable [] = ⟨["src_ip", "dst_ip", "src_port", "dst_port", "protocol",
        "packet_count", "total_bytes", "start_time", "end_time", "duration",
        "avg_packet_size"], []⟩
    ∧ build_features [] = []
    ∧ analyze_flows_with_rules (parseFlowsTable []) =
        ⟨"none", 0, 0, []⟩
    ∧ (∀ model : Classifier, ∀ s : List String,
        predict_flows_fn model (align_features_for_inference (build_features []) s) = []) := by
  refine ⟨rfl, rfl, rfl, rfl, ?_⟩
  intro model s
  unfold predict_flows_fn
  have h0 : FTable.nrows (align_features_for_inference (build_features []) s) = 0 :=
    nrows_align_of_empty_features s
  rw [if_pos (Or.inr h0)]

/-! ## Monotonicity of the detectors (C8) -/
theorem dedup_length_le_append {α : Type} [DecidableEq α] (l₁ l₂ : List α) :
    l₁.dedup.length ≤ (l₁ ++ l₂).dedup.length := by
  rw [← List.card_toFinset, ← List.card_toFinset]
  apply Finset.card_le_card
  intro a ha
  rw [List.mem_toFinset] at ha ⊢
  exact List.mem_append_left _ ha

theorem pyInt_mono (a b : ℚ) (hab : a ≤ b) : pyInt a ≤ pyInt b := by
  unfold pyInt
  split_ifs with ha hb hc
  · exact Int.floor_le_floor hab
  · exact absurd (le_trans ha hab) hb
  · have h1 : ⌈a⌉ ≤ 0 := by
      have := Int.ceil_le.mpr (show a ≤ ((0 : ℤ) : ℚ) by
        push_cast
        exact le_of_lt (not_le.mp ha))
      simpa using this
    have h2 : (0 : ℤ) ≤ ⌊b⌋ := Int.floor_nonneg.mpr hc
    omega
  · exact Int.ceil_le_ceil hab

theorem appendRows_isEmpty_false (t : DTable) (extra : List Row)
    (h : t.isEmpty = false) : (t.appendRows extra).isEmpty = false := by
  rcases (isEmpty_false_iff t).mp h with ⟨hr, hc⟩
  apply (isEmpty_false_iff _).mpr
  refine ⟨?_, hc⟩
  show t.rows ++ extra ≠ []
  intro hnil
  exact hr (List.append_eq_nil.mp hnil).1

/-- C8: appending rows that match a detector's filter (same source for the
port scan, sensitive destination port for bruteforce, port 53 for DNS) to a
table with non-negative packet and byte counts on which the detector
already fires keeps the finding, with severity equal or escalated in the
order low < medium < high < critical. -/
theorem detector_monotone (d : Detector) (t : DTable) (extra : List Row)
    (hnn : ∀ r ∈ t.rows ++ extra, 0 ≤ (r "packet_count").toQ ∧ 0 ≤ (r "total_bytes").toQ)
    (hmatch : ∀ r ∈ extra, matchesFilter d t r)
    (f : RuleFinding) (hf : runDetector d t = some f) :
    ∃ fnew, runDetector d (t.appendRows extra) = some fnew
      ∧ severityRank f.severity ≤ severityRank fnew.severity := by
  have hextra_nn : ∀ r ∈ extra, 0 ≤ (r "packet_count").toQ ∧ 0 ≤ (r "total_bytes").toQ :=
    fun r hr => hnn r (List.mem_append_right _ hr)
  cases d
  case portScan =>
    obtain ⟨hemp, hreq, hsus, hfe⟩ := port_scan_inv t f hf
    rcases List.exists_mem_of_ne_nil _ hsus with ⟨s, hs⟩
    unfold suspiciousSources at hs
    have hsmem := List.mem_filter.mp hs
    have h50 : SCAN_PORT_THRESHOLD ≤ nuniqueDstPorts t.rows s := of_decide_eq_true hsmem.2
    have hnu : nuniqueDstPorts t.rows s ≤ nuniqueDstPorts (t.rows ++ extra) s := by
      unfold nuniqueDstPorts
      rw [List.filter_append, List.map_append]
      exact dedup_length_le_append _ _
    have hsrc : s ∈ srcIpVals (t.rows ++ extra) := by
      have h1 : s ∈ List.map (fun r => r "src_ip") t.rows := by
        have h2 := hsmem.1
        unfold srcIpVals at h2
        exact List.mem_dedup.mp h2
      unfold srcIpVals
      rw [List.mem_dedup, List.map_append]
      exact List.mem_append_left _ h1
    have hs' : s ∈ suspiciousSources (t.rows ++ extra) := by
      unfold suspiciousSources
      rw [List.mem_filter]
      exact ⟨hsrc, decide_eq_true (le_trans h50 hnu)⟩
    have hsus' : suspiciousSources (t.appendRows extra).rows ≠ [] := by
      intro hnil
      rw [show (t.appendRows extra).rows = t.rows ++ extra from rfl] at hnil
      rw [hnil] at hs'
      cases hs'
    refine ⟨_, port_scan_intro (t.appendRows extra)
      (appendRows_isEmpty_false t extra hemp) hreq hsus', ?_⟩
    rw [hfe]
  case bruteforce =>
    obtain ⟨hemp, hreq, hsens, hor, hfe⟩ := bruteforce_inv t f hf
    have hsens_app : sensitiveRows (t.rows ++ extra) = sensitiveRows t.rows ++ extra := by
      unfold sensitiveRows
      rw [List.filter_append]
      congr 1
      apply List.filter_eq_self.mpr
      intro r hr
      exact decide_eq_true (hmatch r hr)
    have hlen : (sensitiveRows t.rows).length ≤ (sensitiveRows (t.rows ++ extra)).length := by
      rw [hsens_app]
      simp
    have hsum : packetSum (sensitiveRows t.rows) ≤ packetSum (sensitiveRows (t.rows ++ extra)) := by
      rw [hsens_app]
      unfold packetSum
      rw [List.map_append, List.sum_append]
      have hnneg : 0 ≤ (extra.map (fun r => (r "packet_count").toQ)).sum := by
        apply List.sum_nonneg
        intro x hx
        rcases List.mem_map.mp hx with ⟨r, hr, rfl⟩
        exact (hextra_nn r hr).1
      linarith
    have hor' : BRUTE_FLOW_COUNT_THRESHOLD ≤ (sensitiveRows (t.rows ++ extra)).length
        ∨ BRUTE_PACKET_THRESHOLD ≤ packetSum (sensitiveRows (t.rows ++ extra)) := by
      rcases hor with hh | hh
      · exact Or.inl (le_trans hh hlen)
      · exact Or.inr (le_trans hh hsum)
    have hsens' : sensitiveRows (t.appendRows extra).rows ≠ [] := by
      show sensitiveRows (t.rows ++ extra) ≠ []
      rw [hsens_app]
      intro hnil
      exact hsens (List.append_eq_nil.mp hnil).1
    refine ⟨_, bruteforce_intro (t.appendRows extra)
      (appendRows_isEmpty_false t extra hemp) hreq hsens' hor', ?_⟩
    rw [hfe]
  case dnsTunnel =>
    obtain ⟨hemp, hreq, hdns, hcond, hfe⟩ := dns_inv t f hf
    have hdns_app : dnsRows (t.rows ++ extra) = dnsRows t.rows ++ extra := by
      unfold dnsRows
      rw [List.filter_append]
      congr 1
      apply List.filter_eq_self.mpr
      intro r hr
      exact decide_eq_true (hmatch r hr)
    have hpk : packetSum (dnsRows t.rows) ≤ packetSum (dnsRows (t.rows ++ extra)) := by
      rw [hdns_app]
      unfold packetSum
      rw [List.map_append, List.sum_append]
      have hnneg : 0 ≤ (extra.map (fun r => (r "packet_count").toQ)).sum := by
        apply List.sum_nonneg
        intro x hx
        rcases List.mem_map.mp hx with ⟨r, hr, rfl⟩
        exact (hextra_nn r hr).1
      linarith
    have hby : byteSum (dnsRows t.rows) ≤ byteSum (dnsRows (t.rows ++ extra)) := by
      rw [hdns_app]
      unfold byteSum
      rw [List.map_append, List.sum_append]
      have hnneg : 0 ≤ (extra.map (fun r => (r "total_bytes").toQ)).sum := by
        apply List.sum_nonneg
        intro x hx
        rcases List.mem_map.mp hx with ⟨r, hr, rfl⟩
        exact (hextra_nn r hr).2
      linarith
    have hpk' := pyInt_mono _ _ hpk
    have hby' := pyInt_mono _ _ hby
    have hdns' : dnsRows (t.appendRows extra).rows ≠ [] := by
      show dnsRows (t.rows ++ extra) ≠ []
      rw [hdns_app]
      intro hnil
      exact hdns (List.append_eq_nil.mp hnil).1
    have hcond' : ¬(pyInt (packetSum (dnsRows (t.appendRows extra).rows)) < DNS_PKT_THRESHOLD
        ∧ pyInt (byteSum (dnsRows (t.appendRows extra).rows)) < DNS_BYTES_THRESHOLD) := by
      show ¬(pyInt (packetSum (dnsRows (t.rows ++ extra))) < _
        ∧ pyInt (byteSum (dnsRows (t.rows ++ extra))) < _)
      rintro ⟨ha, hb⟩
      rcases not_and_or.mp hcond with hh | hh
      · exact hh (lt_of_le_of_lt hpk' ha)
      · exact hh (lt_of_le_of_lt hby' hb)
    refine ⟨_, dns_intro (t.appendRows extra)
      (appendRows_isEmpty_false t extra hemp) hreq hdns' hcond', ?_⟩
    rw [hfe]
    dsimp only
    by_cases hco : DNS_PKT_THRESHOLD * 2 ≤ pyInt (packetSum (dnsRows t.rows))
        ∨ DNS_BYTES_THRESHOLD * 2 ≤ pyInt (byteSum (dnsRows t.rows))
    · have hcn : DNS_PKT_THRESHOLD * 2 ≤ pyInt (packetSum (dnsRows (t.appendRows extra).rows))
          ∨ DNS_BYTES_THRESHOLD * 2 ≤ pyInt (byteSum (dnsRows (t.appendRows extra).rows)) := by
        rcases hco with hh | hh
        · exact Or.inl (le_trans hh hpk')
        · exact Or.inr (le_trans hh hby')
      rw [if_pos hco, if_pos hcn]
    · rw [if_neg hco]
      by_cases hcn : DNS_PKT_THRESHOLD * 2 ≤ pyInt (packetSum (dnsRows (t.appendRows extra).rows))
          ∨ DNS_BYTES_THRESHOLD * 2 ≤ pyInt (byteSum (dnsRows (t.appendRows extra).rows))
      · rw [if_pos hcn]
        show severityRank "medium" ≤ severityRank "high"
        simp [severityRank]
      · rw [if_neg hcn]

/-- Witness for C8: the bruteforce detector on `tableB`, with one more
sensitive-port row appended. -/
theorem detector_monotone_witness :
    ∃ fnew, runDetector Detector.bruteforce (tableB.appendRows [rowB]) = some fnew
      ∧ severityRank (RuleFinding.mk "PV02_BRUTEFORCE_LIKE" "high" 1).severity
          ≤ severityRank fnew.severity := by
  apply detector_monotone Detector.bruteforce tableB [rowB]
  · intro r hr
    have hrB : r = rowB := by
      simpa [tableB] using hr
    rw [hrB]
    constructor
    · show (0 : ℚ) ≤ (rowB "packet_count").toQ
      rw [show rowB "packet_count" = Val.num 1000 by simp [rowB]]
      show (0 : ℚ) ≤ 1000
      norm_num
    · show (0 : ℚ) ≤ (rowB "total_bytes").toQ
      rw [show rowB "total_bytes" = Val.num 1000 by simp [rowB]]
      show (0 : ℚ) ≤ 1000
      norm_num
  · intro r hr
    have hrB : r = rowB := by
      simpa using hr
    rw [hrB]
    show rowB "dst_port" ∈ SENSITIVE_PORTS
    simp [rowB, SENSITIVE_PORTS]
  · exact rule_bruteforce_tableB

end PacketVision
